import Mathlib

/-!
# tpu-traffic-classifier: a shallow embedding of `main.go`

The daemon classifies the validators seen in gossip by stake weight, keeps one
kernel IP set per traffic class up to date and installs the iptables chains that
mark and filter the traffic of every class.

Modelling conventions.

* `float64` thresholds and stake fractions are values of `Float64`: NaN, the two
  infinities, or a finite value kept as the rational it stands for, compared as
  Go compares them. The rounding of `float64(a) / float64(b)` is not modelled.
* `uint64` and `uint16` are naturals reduced modulo `2^64` and `2^16`.
* The kernel side (ipset, iptables) is a pure state: a set is a membership
  function, a chain is the list of its rule specifications.
* The RPC answers of a tick are inputs of the tick.
-/

namespace TpuTrafficClassifier

/-! ## Floating-point values -/

/-- A `float64` as far as the program compares it: not-a-number (`.nan` in the
YAML file), an infinity, or a finite value, kept as the rational it stands
for. -/
inductive Float64 where
  | nan
  | negInf
  | fin (q : ℚ)
  | posInf
deriving DecidableEq

/-- The comparison `a < b` of Go on `float64`: false as soon as one side is NaN. -/
def Float64.lt : Float64 → Float64 → Bool
  | .nan, _ => false
  | _, .nan => false
  | _, .negInf => false
  | .negInf, _ => true
  | .posInf, _ => false
  | .fin _, .posInf => true
  | .fin p, .fin q => decide (p < q)

/-- The comparison `a <= b` of Go on `float64`: false as soon as one side is
NaN. -/
def Float64.le : Float64 → Float64 → Bool
  | .nan, _ => false
  | _, .nan => false
  | .negInf, _ => true
  | _, .posInf => true
  | .posInf, _ => false
  | .fin _, .negInf => false
  | .fin p, .fin q => decide (p ≤ q)

instance : LT Float64 := ⟨fun a b => Float64.lt a b = true⟩

instance : LE Float64 := ⟨fun a b => Float64.le a b = true⟩

instance (a b : Float64) : Decidable (a < b) :=
  inferInstanceAs (Decidable (Float64.lt a b = true))

instance (a b : Float64) : Decidable (a ≤ b) :=
  inferInstanceAs (Decidable (Float64.le a b = true))

/-! ## Configuration (`main.go`, lines 67-87) -/

/-- A traffic class: set name, stake threshold and packet mark. -/
structure TrafficClass where
  Name : String
  Stake : Float64
  FwMark : Nat
deriving DecidableEq

/-- A statically configured node. -/
structure CustomNode where
  Name : String
  Ip : String
deriving DecidableEq

/-- The configuration file. -/
structure Config where
  Classes : List TrafficClass
  UnstakedClass : TrafficClass
  CustomNodeClass : TrafficClass
  CustomNodes : List CustomNode
deriving DecidableEq

/-- The comparison handed to `sort.SliceStable` (line 257):
`cfg.Classes[i].Stake > cfg.Classes[j].Stake`. -/
def less (a b : TrafficClass) : Prop := a.Stake > b.Stake

instance : DecidableRel less := fun a b => by unfold less; infer_instance

/-- The inner loop of the library's `insertionSort_func` for the element `x`
(`for j := i; j > a && less(j, j-1); j--` with a swap): the sorted part is given
in reverse, its last element first; `x` passes every element it is `less` than
and stops at the first one it is not `less` than. -/
def insertBack (x : TrafficClass) : List TrafficClass → List TrafficClass
  | [] => [x]
  | y :: ys => if less x y then y :: insertBack x ys else x :: y :: ys

/-- The call `sort.SliceStable(cfg.Classes, less)` of line 256: the elements are
inserted one after the other, from the left, as `insertionSort_func` does. This
is what the library runs on a slice of at most 20 elements; a longer slice is
sorted in blocks of 20 that the library merges, with the same result whenever
`less` is a strict weak order (no NaN threshold); the order that the library
gives to more than 20 classes with a NaN threshold is not modelled. -/
def SliceStable (xs : List TrafficClass) : List TrafficClass :=
  (xs.foldl (fun sorted x => insertBack x sorted) []).reverse

/-- Lines 249-258 of `main`: the unstaked class gets threshold `-1`, the custom
class threshold `100`, both are appended to the staked classes and the list is
sorted by threshold, highest first. -/
def loadClasses (cfg : Config) : Config :=
  let unstaked := { cfg.UnstakedClass with Stake := .fin (-1) }
  let custom := { cfg.CustomNodeClass with Stake := .fin 100 }
  { cfg with
    UnstakedClass := unstaked
    CustomNodeClass := custom
    Classes := SliceStable ((cfg.Classes ++ [unstaked]) ++ [custom]) }

/-- The class a staked peer lands in (lines 538-549): the loop over `cfg.Classes`
adds to the first class with `percent > class.Stake` and the flag `added` stops
any later class from matching. -/
def selectClass (classes : List TrafficClass) (percent : Float64) : Option TrafficClass :=
  classes.find? (fun c => decide (percent > c.Stake))

/-! ## Command-line flags, RPC answers and parsers -/

/-- The values of the command-line flags that `main` reads (`Pubkey` after the
optional identity fetch of lines 264-272). -/
structure Flags where
  Pubkey : String
  UpdateIpSets : Bool
  DefaultTPUPolicy : String
  DefaultTPUQuicPolicy : String
  DefaultTPUQuicfwdPolicy : String
  DefaultFWDPolicy : String
  DefaultVotePolicy : String
deriving DecidableEq

/-- One vote account of `GetVoteAccounts`. -/
structure VoteAccount where
  NodePubkey : String
  ActivatedStake : Nat
deriving DecidableEq

/-- The answer of `GetVoteAccounts`. -/
structure VoteAccounts where
  Current : List VoteAccount
  Delinquent : List VoteAccount
deriving DecidableEq

/-- One entry of `GetClusterNodes`; a `nil` pointer is `none`. -/
structure ClusterNode where
  Pubkey : String
  Gossip : Option String
  TPU : Option String
  TPUQUIC : Option String
deriving DecidableEq

/-- The two library parsers the loop calls: `net.SplitHostPort` (host and port,
`none` on error) and `strconv.Atoi` (`none` on error). They are parameters of
the model. -/
structure Parsers where
  SplitHostPort : String → Option (String × String)
  Atoi : String → Option Int

/-- What one tick receives from the RPC node: `none` is a failed call. -/
structure TickInput where
  voteAccounts : Option VoteAccounts
  clusterNodes : Option (List ClusterNode)

/-! ## The kernel: IP sets and iptables -/

/-- The named IP sets: `none` when no set has that name, else its membership. -/
abbrev IpSets := String → Option (String → Bool)

/-- A rule specification: the argument list given to iptables. -/
abbrev RuleSpec := List String

/-- A chain of a table with its rules, first rule first. -/
structure Chain where
  table : String
  name : String
  rules : List RuleSpec
deriving DecidableEq

/-- The chains that exist, in creation order; a (table, name) pair occurs once.
A rule is accepted whenever its chain exists: that the kernel knows the jump
target and the matched set is not checked (startup creates both before use). -/
abbrev IpTables := List Chain

/-- The sets and chains of the kernel. -/
structure Kernel where
  sets : IpSets
  ipt : IpTables

/-- Whether `addr` is a member of the set `name` (false when there is no set). -/
def isMember (s : IpSets) (name addr : String) : Bool :=
  match s name with
  | some f => f addr
  | none => false

namespace ipset

/-- `ipset.Create`: a new empty set; an existing set is left as it is. -/
def Create (name : String) (s : IpSets) : IpSets :=
  match s name with
  | some _ => s
  | none => Function.update s name (some (fun _ => false))

/-- `ipset.Flush`: removes every member of an existing set. -/
def Flush (name : String) (s : IpSets) : IpSets :=
  match s name with
  | some _ => Function.update s name (some (fun _ => false))
  | none => s

/-- `ipset.Add`: adds `addr` to an existing set (the call is taken to succeed
whenever the set exists). -/
def Add (name addr : String) (s : IpSets) : IpSets :=
  match s name with
  | some f => Function.update s name (some (Function.update f addr true))
  | none => s

/-- `ipset.Del`: removes `addr` from an existing set. -/
def Del (name addr : String) (s : IpSets) : IpSets :=
  match s name with
  | some f => Function.update s name (some (Function.update f addr false))
  | none => s

end ipset

/-- Whether `a` is directly followed by `b` in a rule specification. -/
def adjacent (a b : String) (spec : RuleSpec) : Bool :=
  (spec.zip spec.tail).contains (a, b)

/-- Whether some rule of some chain matches on the set `name`. -/
def setReferenced (ipt : IpTables) (name : String) : Bool :=
  ipt.any (fun ch => ch.rules.any (adjacent "--match-set" name))

/-- Whether some rule of `table` jumps to `chain`. -/
def chainReferenced (ipt : IpTables) (table chain : String) : Bool :=
  ipt.any (fun ch => decide (ch.table = table) && ch.rules.any (adjacent "-j" chain))

/-- `ipset.Destroy`: removes the set, unless a rule still matches on it (the
kernel refuses to destroy a set that is in use). -/
def ipsetDestroy (name : String) (k : Kernel) : Kernel :=
  if setReferenced k.ipt name then k
  else { k with sets := Function.update k.sets name none }

namespace iptables

/-- The rules of a chain, `none` when the chain does not exist. -/
def rules? (ipt : IpTables) (table chain : String) : Option (List RuleSpec) :=
  (ipt.find? (fun ch => decide (ch.table = table ∧ ch.name = chain))).map (fun ch => ch.rules)

/-- Replaces the rule list of the chain (no effect when it does not exist). -/
def modify (ipt : IpTables) (table chain : String)
    (f : List RuleSpec → List RuleSpec) : IpTables :=
  ipt.map (fun ch =>
    if ch.table = table ∧ ch.name = chain then { ch with rules := f ch.rules } else ch)

/-- `ipt.ChainExists`. -/
def ChainExists (ipt : IpTables) (table chain : String) : Bool :=
  (rules? ipt table chain).isSome

/-- `ipt.NewChain` (`-N`): fails, changing nothing, when the chain exists. -/
def NewChain (ipt : IpTables) (table chain : String) : IpTables :=
  if ChainExists ipt table chain then ipt else ipt ++ [⟨table, chain, []⟩]

/-- `ipt.Exists` (`-C`). -/
def Exists (ipt : IpTables) (table chain : String) (spec : RuleSpec) : Bool :=
  match rules? ipt table chain with
  | some rs => decide (spec ∈ rs)
  | none => false

/-- `ipt.Append` (`-A`): the rule becomes the last rule of the chain. -/
def Append (ipt : IpTables) (table chain : String) (spec : RuleSpec) : IpTables :=
  modify ipt table chain (fun rs => rs ++ [spec])

/-- `ipt.AppendUnique`: `Append` unless `Exists`. -/
def AppendUnique (ipt : IpTables) (table chain : String) (spec : RuleSpec) : IpTables :=
  if Exists ipt table chain spec then ipt else Append ipt table chain spec

/-- `ipt.Insert` (`-I chain pos`): the rule becomes rule number `pos`, counted
from 1; fails when `pos` is not between 1 and the length plus one. -/
def Insert (ipt : IpTables) (table chain : String) (pos : Nat) (spec : RuleSpec) :
    IpTables :=
  modify ipt table chain (fun rs =>
    if 1 ≤ pos ∧ pos ≤ rs.length + 1 then rs.take (pos - 1) ++ spec :: rs.drop (pos - 1)
    else rs)

/-- `ipt.Delete` (`-D`): removes the first rule equal to `spec`, if any. -/
def Delete (ipt : IpTables) (table chain : String) (spec : RuleSpec) : IpTables :=
  modify ipt table chain (fun rs => rs.erase spec)

/-- `ipt.DeleteChain` (`-X`): removes a chain that is empty and that no rule of
the table jumps to; otherwise it fails and changes nothing. -/
def DeleteChain (ipt : IpTables) (table chain : String) : IpTables :=
  match rules? ipt table chain with
  | some [] =>
    if chainReferenced ipt table chain then ipt
    else ipt.filter (fun ch => !decide (ch.table = table ∧ ch.name = chain))
  | _ => ipt

/-- `ipt.ClearAndDeleteChain`: flush (`-F`), then `-X`. -/
def ClearAndDeleteChain (ipt : IpTables) (table chain : String) : IpTables :=
  DeleteChain (modify ipt table chain (fun _ => [])) table chain

end iptables

/-! ## Names (`main.go`, lines 59-62) -/

def mangleChain : String := "solana-nodes"

def filterChain : String := "solana-tpu"

def filterChainCustom : String := "solana-tpu-custom"

def gossipSet : String := "solana-gossip"

/-! ## The port registry -/

/-- Modelled from the spec: the type `ValidatorPorts`, its constructor
`NewValidatorPorts` and its string accessors are used by `main.go` but declared
elsewhere. The five `uint16` ports. -/
structure ValidatorPorts where
  TPU : Nat
  Fwd : Nat
  Vote : Nat
  TPUquic : Nat
  TPUquicfwd : Nat
deriving DecidableEq

/-- Modelled from the spec: the constructor is missing from `main.go`; section 4.2
gives `tpu = p`, `tpu_fwd = p + 6`, `vote = p - 1`, `tpu_quic = q`,
`tpu_quic_fwd = q + 6`, here in `uint16` arithmetic. -/
def NewValidatorPorts (tpu quic : Nat) : ValidatorPorts :=
  { TPU := tpu % 65536
    Fwd := (tpu + 6) % 65536
    Vote := (tpu + 65535) % 65536
    TPUquic := quic % 65536
    TPUquicfwd := (quic + 6) % 65536 }

/-- Modelled from the spec: the accessors `TPUstr`, `Fwdstr`, `Votestr`,
`TPUquicstr` and `TPUquicfwdstr` are missing from `main.go`; each is the decimal
text of its port, as the `--dport` argument needs. -/
def ValidatorPorts.TPUstr (p : ValidatorPorts) : String := toString p.TPU

def ValidatorPorts.Fwdstr (p : ValidatorPorts) : String := toString p.Fwd

def ValidatorPorts.Votestr (p : ValidatorPorts) : String := toString p.Vote

def ValidatorPorts.TPUquicstr (p : ValidatorPorts) : String := toString p.TPUquic

def ValidatorPorts.TPUquicfwdstr (p : ValidatorPorts) : String := toString p.TPUquicfwd

/-- The conversion `uint16(port)` of an `int`. -/
def uint16 (port : Int) : Nat := (port % 65536).toNat

/-! ## Firewall helpers (`main.go`, lines 89-133) -/

/-- The function `createChain`: the chain is created when it does not exist, and
a non-empty policy is appended with `AppendUnique` as the rule `-j policy`. -/
def createChain (ipt : IpTables) (table filterChain policy : String) : IpTables :=
  let ipt1 :=
    if !iptables.ChainExists ipt table filterChain then iptables.NewChain ipt table filterChain
    else ipt
  if policy ≠ "" then iptables.AppendUnique ipt1 table filterChain ["-j", policy]
  else ipt1

/-- The per-port rule of `mangle/PREROUTING`. -/
def mangleRule (port mangleChain : String) : RuleSpec :=
  ["-p", "udp", "--dport", port, "-j", mangleChain]

/-- The per-port rule of `filter/INPUT`. -/
def inputRule (port filterChain : String) : RuleSpec :=
  ["-p", "udp", "--dport", port, "-j", filterChain]

/-- The function `deleteMangleInputRules`. -/
def deleteMangleInputRules (ipt : IpTables) (port mangleChain filterChain : String) :
    IpTables :=
  let ipt1 := iptables.Delete ipt "mangle" "PREROUTING" (mangleRule port mangleChain)
  iptables.Delete ipt1 "filter" "INPUT" (inputRule port filterChain)

/-- The function `insertMangleInputRules`: `AppendUnique` in `mangle/PREROUTING`,
and `Insert` at position 1 of `filter/INPUT` unless the rule `Exists`. -/
def insertMangleInputRules (ipt : IpTables) (port mangleChain filterChain : String) :
    IpTables :=
  let ipt1 := iptables.AppendUnique ipt "mangle" "PREROUTING" (mangleRule port mangleChain)
  if !iptables.Exists ipt1 "filter" "INPUT" (inputRule port filterChain) then
    iptables.Insert ipt1 "filter" "INPUT" 1 (inputRule port filterChain)
  else ipt1

/-- The five calls of `deleteMangleInputRules` (lines 152-156 and 476-480). -/
def deletePortRules (ipt : IpTables) (vp : ValidatorPorts) : IpTables :=
  let ipt1 := deleteMangleInputRules ipt vp.TPUstr mangleChain filterChain
  let ipt2 := deleteMangleInputRules ipt1 vp.Fwdstr mangleChain (filterChain ++ "-fwd")
  let ipt3 := deleteMangleInputRules ipt2 vp.Votestr mangleChain (filterChain ++ "-vote")
  let ipt4 := deleteMangleInputRules ipt3 vp.TPUquicstr mangleChain (filterChain ++ "-quic")
  deleteMangleInputRules ipt4 vp.TPUquicfwdstr mangleChain (filterChain ++ "-quic-fwd")

/-- The five calls of `insertMangleInputRules` (lines 485-489). -/
def insertPortRules (ipt : IpTables) (vp : ValidatorPorts) : IpTables :=
  let ipt1 := insertMangleInputRules ipt vp.TPUstr mangleChain filterChain
  let ipt2 := insertMangleInputRules ipt1 vp.Fwdstr mangleChain (filterChain ++ "-fwd")
  let ipt3 := insertMangleInputRules ipt2 vp.Votestr mangleChain (filterChain ++ "-vote")
  let ipt4 := insertMangleInputRules ipt3 vp.TPUquicstr mangleChain (filterChain ++ "-quic")
  insertMangleInputRules ipt4 vp.TPUquicfwdstr mangleChain (filterChain ++ "-quic-fwd")

/-! ## Teardown (`cleanUp`, lines 135-185) -/

/-- The function `cleanUp` once the signal has arrived. `validatorPorts` is the
pointer that the caller passed. -/
def cleanUp (cfg : Config) (validatorPorts : Option ValidatorPorts) (k : Kernel) : Kernel :=
  -- lines 141-142
  let k1 := ipsetDestroy gossipSet { k with sets := ipset.Flush gossipSet k.sets }
  -- lines 144-148
  let k2 := cfg.Classes.foldl
    (fun k set => ipsetDestroy set.Name { k with sets := ipset.Flush set.Name k.sets }) k1
  -- lines 151-157
  let ipt3 :=
    match validatorPorts with
    | some vp => deletePortRules k2.ipt vp
    | none => k2.ipt
  -- lines 160-165
  let ipt4 := iptables.Delete ipt3 "mangle" "PREROUTING" ["-p", "udp", "-j", mangleChain]
  let ipt5 := iptables.Delete ipt4 "filter" "INPUT" ["-p", "udp", "-j", filterChain]
  let ipt6 := iptables.Delete ipt5 "filter" "INPUT" ["-p", "udp", "-j", filterChain ++ "-fwd"]
  let ipt7 := iptables.Delete ipt6 "filter" "INPUT" ["-p", "udp", "-j", filterChain ++ "-vote"]
  let ipt8 := iptables.Delete ipt7 "filter" "INPUT" ["-p", "udp", "-j", filterChain ++ "-quic"]
  let ipt9 :=
    iptables.Delete ipt8 "filter" "INPUT" ["-p", "udp", "-j", filterChain ++ "-quic-fwd"]
  -- lines 168-173
  let ipt10 := iptables.ClearAndDeleteChain ipt9 "mangle" mangleChain
  let ipt11 := iptables.ClearAndDeleteChain ipt10 "filter" filterChain
  let ipt12 := iptables.ClearAndDeleteChain ipt11 "filter" (filterChain ++ "-fwd")
  let ipt13 := iptables.ClearAndDeleteChain ipt12 "filter" (filterChain ++ "-vote")
  let ipt14 := iptables.ClearAndDeleteChain ipt13 "filter" (filterChain ++ "-quic")
  let ipt15 := iptables.ClearAndDeleteChain ipt14 "filter" (filterChain ++ "-quic-fwd")
  -- lines 176-180
  let ipt16 := iptables.DeleteChain ipt15 "filter" filterChainCustom
  let ipt17 := iptables.DeleteChain ipt16 "filter" (filterChainCustom ++ "-fwd")
  let ipt18 := iptables.DeleteChain ipt17 "filter" (filterChainCustom ++ "-vote")
  let ipt19 := iptables.DeleteChain ipt18 "filter" (filterChainCustom ++ "-quic")
  let ipt20 := iptables.DeleteChain ipt19 "filter" (filterChainCustom ++ "-quic-fwd")
  { sets := k2.sets, ipt := ipt20 }

/-! ## Startup (`main`, lines 286-380) -/

/-- Lines 286-292: the gossip set and the set of every class are created and
flushed. -/
def createSets (cfg : Config) (s : IpSets) : IpSets :=
  cfg.Classes.foldl (fun s set => ipset.Flush set.Name (ipset.Create set.Name s))
    (ipset.Flush gossipSet (ipset.Create gossipSet s))

/-- The mangle rule of a class (line 324). -/
def markRule (set : TrafficClass) : RuleSpec :=
  ["-m", "set", "--match-set", set.Name, "src", "-j", "MARK", "--set-mark",
    toString set.FwMark]

/-- Lines 307-365: the chains, the mangle rule of every class, the catch-all
rule when no pubkey is known, and the jumps to the custom chains. -/
def createRules (flags : Flags) (cfg : Config) (ipt : IpTables) : IpTables :=
  -- lines 308-313
  let a1 := createChain ipt "mangle" mangleChain "ACCEPT"
  let a2 := createChain a1 "filter" filterChain flags.DefaultTPUPolicy
  let a3 := createChain a2 "filter" (filterChain ++ "-fwd") flags.DefaultFWDPolicy
  let a4 := createChain a3 "filter" (filterChain ++ "-vote") flags.DefaultVotePolicy
  let a5 := createChain a4 "filter" (filterChain ++ "-quic") flags.DefaultTPUQuicPolicy
  let a6 := createChain a5 "filter" (filterChain ++ "-quic-fwd") flags.DefaultTPUQuicfwdPolicy
  -- lines 316-320
  let b1 := createChain a6 "filter" filterChainCustom ""
  let b2 := createChain b1 "filter" (filterChainCustom ++ "-fwd") ""
  let b3 := createChain b2 "filter" (filterChainCustom ++ "-vote") ""
  let b4 := createChain b3 "filter" (filterChainCustom ++ "-quic") ""
  let b5 := createChain b4 "filter" (filterChainCustom ++ "-quic-fwd") ""
  -- lines 323-328
  let c1 := cfg.Classes.foldl
    (fun ipt set => iptables.AppendUnique ipt "mangle" mangleChain (markRule set)) b5
  -- lines 331-341
  let c2 :=
    if flags.Pubkey = "" then
      iptables.AppendUnique c1 "mangle" "PREROUTING" ["-p", "udp", "-j", mangleChain]
    else c1
  -- lines 344-365
  let d1 := iptables.Insert c2 "filter" filterChain 1 ["-j", filterChainCustom]
  let d2 := iptables.Insert d1 "filter" (filterChain ++ "-fwd") 1
    ["-j", filterChainCustom ++ "-fwd"]
  let d3 := iptables.Insert d2 "filter" (filterChain ++ "-vote") 1
    ["-j", filterChainCustom ++ "-vote"]
  let d4 := iptables.Insert d3 "filter" (filterChain ++ "-quic") 1
    ["-j", filterChainCustom ++ "-quic"]
  iptables.Insert d4 "filter" (filterChain ++ "-quic-fwd") 1
    ["-j", filterChainCustom ++ "-quic-fwd"]

/-- The topology installation of startup: the sets (lines 286-292), then the
chains and rules (lines 307-365). `cfg` is the configuration after
`loadClasses`. -/
def installTopology (flags : Flags) (cfg : Config) (k : Kernel) : Kernel :=
  { sets := createSets cfg k.sets, ipt := createRules flags cfg k.ipt }

/-- Lines 367-380: every custom node is added to the gossip set and to the set
named by the custom node class. -/
def seedCustomNodes (cfg : Config) (s : IpSets) : IpSets :=
  cfg.CustomNodes.foldl
    (fun s node => ipset.Add cfg.CustomNodeClass.Name node.Ip (ipset.Add gossipSet node.Ip s)) s

/-! ## The reconciliation loop (`main`, lines 382-580) -/

/-- The kernel together with the variable `validatorPorts` of `main`. -/
structure State where
  sets : IpSets
  ipt : IpTables
  validatorPorts : Option ValidatorPorts

/-- The variables `stakedPeers` (pubkey to stake) and `totalStake` of a tick. -/
structure StakeTable where
  stakedPeers : String → Option Nat
  totalStake : Nat

/-- The body shared by the loops over the current and the delinquent vote
accounts (lines 404-421 and 424-441): the stake is added to `totalStake`
(`uint64`); the local identity and accounts without stake are skipped. The guard
`*flagPubkey != "" || flagPubkey != nil` is always true, the pointer being never
`nil`. -/
def addVoteAccount (flags : Flags) (t : StakeTable) (node : VoteAccount) : StakeTable :=
  let total := (t.totalStake + node.ActivatedStake) % 2 ^ 64
  if (flags.Pubkey ≠ "" ∨ True) ∧ node.NodePubkey = flags.Pubkey then
    { t with totalStake := total }
  else if node.ActivatedStake ≤ 0 then
    { t with totalStake := total }
  else
    { stakedPeers := Function.update t.stakedPeers node.NodePubkey (some node.ActivatedStake)
      totalStake := total }

/-- Lines 383-442 when the vote accounts were fetched. -/
def buildStakeTable (flags : Flags) (v : VoteAccounts) : StakeTable :=
  v.Delinquent.foldl (addVoteAccount flags)
    (v.Current.foldl (addVoteAccount flags) { stakedPeers := fun _ => none, totalStake := 0 })

/-- The outcome of the port step for one node: the loop goes on, the loop is left
by `break`, or the process dies on the `nil` dereference `*node.TPUQUIC`. -/
inductive PortStep where
  | next (st : State)
  | stop (st : State)
  | crash

/-- Lines 459-505: when the node is the local identity and has a TPU address,
its ports are parsed, the rules of changed ports are deleted, the registry is
replaced and the rules of the new ports are inserted. -/
def portStep (P : Parsers) (flags : Flags) (node : ClusterNode) (st : State) : PortStep :=
  if flags.Pubkey ≠ "" ∧ flags.Pubkey = node.Pubkey then
    match node.TPU with
    | none => .next st
    | some tpuAddr =>
      match node.TPUQUIC with
      | none => .crash
      | some quicTPUAddr =>
        match P.SplitHostPort tpuAddr, P.SplitHostPort quicTPUAddr with
        | some (_, tpu_port), some (_, tpu_quic_port) =>
          match P.Atoi tpu_port, P.Atoi tpu_quic_port with
          | some port, some quic_port =>
            let ipt1 :=
              match st.validatorPorts with
              | some vp =>
                if vp.TPU ≠ uint16 port ∨ vp.TPUquic ≠ uint16 quic_port then
                  deletePortRules st.ipt vp
                else st.ipt
              | none => st.ipt
            let vp := NewValidatorPorts (uint16 port) (uint16 quic_port)
            let st2 : State :=
              { st with ipt := insertPortRules ipt1 vp, validatorPorts := some vp }
            if !flags.UpdateIpSets then .stop st2 else .next st2
          | _, _ => .next st
        | _, _ => .next st
  else .next st

/-- Lines 511-532: the gossip host, then the TPU host when the TPU address is
present, non-empty, parses and differs from the gossip host. -/
def addressesOf (P : Parsers) (node : ClusterNode) (gossip_host : String) : List String :=
  [gossip_host] ++
    (match node.TPU with
     | some tpu =>
       if tpu ≠ "" then
         match P.SplitHostPort tpu with
         | some (tpu_host, _) => if tpu_host ≠ gossip_host then [tpu_host] else []
         | none => []
       else []
     | none => [])

/-- The stake fraction of line 536, `float64(val.Stake) / float64(totalStake)`:
the exact quotient, `+Inf` for a positive stake over a total of `0` (which needs
the `uint64` sum to wrap) and NaN for `0 / 0`. The rounding of the conversions
and of the division is not modelled. -/
def percentOf (stake totalStake : Nat) : Float64 :=
  if totalStake = 0 then (if stake = 0 then .nan else .posInf)
  else .fin ((stake : ℚ) / (totalStake : ℚ))

/-- The body of the inner loop of the staked branch (lines 542-552) for one class
and one address; the Boolean is the flag `added`. -/
def stakedStep (percent : Float64) (cls : TrafficClass) (acc : IpSets × Bool) (addr : String) :
    IpSets × Bool :=
  let s1 := ipset.Add gossipSet addr acc.1
  if percent > cls.Stake ∧ acc.2 = false then (ipset.Add cls.Name addr s1, true)
  else (ipset.Del cls.Name addr s1, acc.2)

/-- The staked branch (lines 538-554): for every class, for every address of
`addresses[1:]`. -/
def stakedBranch (cfg : Config) (percent : Float64) (addresses : List String) (s : IpSets) :
    IpSets :=
  (cfg.Classes.foldl
    (fun acc cls => addresses.tail.foldl (stakedStep percent cls) acc) (s, false)).1

/-- The body of the loop of the unstaked branch (lines 559-565) for one address:
the classes of `cfg.Classes[1:]` other than the unstaked one lose the address. -/
def unstakedStep (cfg : Config) (s : IpSets) (addr : String) : IpSets :=
  let s1 := ipset.Add gossipSet addr s
  let s2 := ipset.Add cfg.UnstakedClass.Name addr s1
  cfg.Classes.tail.foldl
    (fun s cls => if cls.Name ≠ cfg.UnstakedClass.Name then ipset.Del cls.Name addr s else s) s2

/-- The unstaked branch (lines 558-566): for every address of `addresses`. -/
def unstakedBranch (cfg : Config) (addresses : List String) (s : IpSets) : IpSets :=
  addresses.foldl (unstakedStep cfg) s

/-- Lines 508-570, the set updates for one gossip node: a node without gossip
address or with a gossip address that does not parse changes nothing. -/
def classifyNode (P : Parsers) (cfg : Config) (t : StakeTable) (node : ClusterNode)
    (s : IpSets) : IpSets :=
  match node.Gossip with
  | none => s
  | some gossip =>
    match P.SplitHostPort gossip with
    | none => s
    | some (gossip_host, _) =>
      let addresses := addressesOf P node gossip_host
      match t.stakedPeers node.Pubkey with
      | some stake => stakedBranch cfg (percentOf stake t.totalStake) addresses s
      | none => unstakedBranch cfg addresses s

/-- The loop over the gossip nodes (lines 458-571); `none` when the process
died. -/
def nodeLoop (P : Parsers) (flags : Flags) (cfg : Config) (t : StakeTable) :
    List ClusterNode → State → Option State
  | [], st => some st
  | node :: rest, st =>
    match portStep P flags node st with
    | .crash => none
    | .stop st1 => some st1
    | .next st1 =>
      nodeLoop P flags cfg t rest { st1 with sets := classifyNode P cfg t node st1.sets }

/-- One pass of the endless loop of `main` (lines 382-580). A failed RPC call
ends the pass without any change; without `-update` the stake table is the `nil`
map. `none` when the process died. -/
def tick (P : Parsers) (flags : Flags) (cfg : Config) (inp : TickInput) (st : State) :
    Option State :=
  let table : Option StakeTable :=
    if flags.UpdateIpSets then inp.voteAccounts.map (buildStakeTable flags)
    else some { stakedPeers := fun _ => none, totalStake := 0 }
  match table with
  | none => some st
  | some t =>
    match inp.clusterNodes with
    | none => some st
    | some nodes => nodeLoop P flags cfg t nodes st

/-- The state when the loop starts: the topology is installed on the kernel `k`,
the custom nodes are seeded and `validatorPorts` is `nil` (line 207). -/
def startup (flags : Flags) (cfg : Config) (k : Kernel) : State :=
  let k1 := installTopology flags cfg k
  { sets := seedCustomNodes cfg k1.sets, ipt := k1.ipt, validatorPorts := none }

/-- The passes of the loop, one after the other. -/
def runTicks (P : Parsers) (flags : Flags) (cfg : Config) :
    List TickInput → State → Option State
  | [], st => some st
  | inp :: rest, st =>
    match tick P flags cfg inp st with
    | none => none
    | some st1 => runTicks P flags cfg rest st1

/-- A run of `main` that receives the termination signal after the given passes.
The goroutine `cleanUp` is started at line 297 with the value that
`validatorPorts` has there, the `nil` of line 207; the later assignment of
line 483 changes the variable of `main`, not the argument of `cleanUp`. -/
def mainRun (P : Parsers) (flags : Flags) (cfgFile : Config) (k : Kernel)
    (passes : List TickInput) : Option Kernel :=
  let validatorPorts : Option ValidatorPorts := none
  let cfg := loadClasses cfgFile
  let cleanUpPorts := validatorPorts
  match runTicks P flags cfg passes (startup flags cfg k) with
  | none => none
  | some st => some (cleanUp cfg cleanUpPorts { sets := st.sets, ipt := st.ipt })

/-- The states the loop can be in at the end of a pass. -/
inductive Reachable (P : Parsers) (flags : Flags) (cfgFile : Config) : State → Prop
  | start (k : Kernel) : Reachable P flags cfgFile (startup flags (loadClasses cfgFile) k)
  | pass (st st1 : State) (inp : TickInput) :
      Reachable P flags cfgFile st →
      tick P flags (loadClasses cfgFile) inp st = some st1 →
      Reachable P flags cfgFile st1

/-! ## Concrete inputs -/

/-- A parser for the samples below: the text before the last colon is the host
and the text after it the port, as `net.SplitHostPort` does on `host:port` with
an IPv4 host. -/
def sampleSplitHostPort (hostport : String) : Option (String × String) :=
  match hostport.toList.reverse.span (fun c => c != ':') with
  | (_, []) => none
  | (port, _ :: host) => some (String.mk host.reverse, String.mk port.reverse)

/-- A parser for the samples below: decimal digits to the number, as
`strconv.Atoi` does on unsigned decimal text. -/
def sampleAtoi (s : String) : Option Int :=
  if s.toList ≠ [] ∧ s.toList.all Char.isDigit then
    some (s.toList.foldl (fun n c => 10 * n + (c.toNat - 48)) 0 : Nat)
  else none

def sampleParsers : Parsers := ⟨sampleSplitHostPort, sampleAtoi⟩

/-- A kernel with empty built-in chains and no set. -/
def freshKernel : Kernel :=
  { sets := fun _ => none
    ipt := [⟨"mangle", "PREROUTING", []⟩, ⟨"filter", "INPUT", []⟩] }

/-- Flags of a run with stake updates, no default policies and no pubkey. -/
def sampleFlags : Flags :=
  { Pubkey := "", UpdateIpSets := true, DefaultTPUPolicy := "", DefaultTPUQuicPolicy := "",
    DefaultTPUQuicfwdPolicy := "", DefaultFWDPolicy := "", DefaultVotePolicy := "" }

/-- The configuration of scenario 1: gold above 1%, silver above 0.1%, the
unstaked class bronze, the custom class `solana-custom` with one custom node. -/
def sampleConfig : Config :=
  { Classes := [⟨"gold", .fin (1 / 100), 10⟩, ⟨"silver", .fin (1 / 1000), 20⟩]
    UnstakedClass := ⟨"bronze", .fin 0, 30⟩
    CustomNodeClass := ⟨"solana-custom", .fin 0, 40⟩
    CustomNodes := [⟨"rpc", "5.5.5.5"⟩] }

/-- The sets of the state that a port step hands on are the sets `s`. -/
def PortStep.keepsSets (s : IpSets) : PortStep → Prop
  | .next st1 => st1.sets = s
  | .stop st1 => st1.sets = s
  | .crash => True

/-- The gossip set exists and holds every member of every class set. -/
def GossipSuperset (cfg : Config) (s : IpSets) : Prop :=
  (s gossipSet).isSome = true ∧
    ∀ c ∈ cfg.Classes, ∀ a, isMember s c.Name a = true → isMember s gossipSet a = true

/-- The sample parsers, started on the fresh kernel and run through the given
passes; the state is the startup state when the process died on the way. -/
def sampleRun (flags : Flags) (cfgFile : Config) (passes : List TickInput) : State :=
  (runTicks sampleParsers flags (loadClasses cfgFile) passes
    (startup flags (loadClasses cfgFile) freshKernel)).getD
    (startup flags (loadClasses cfgFile) freshKernel)

/-- A configuration whose staked class carries the name of the gossip set. -/
def clashConfig : Config :=
  { Classes := [⟨"solana-gossip", .fin (1 / 2), 10⟩]
    UnstakedClass := ⟨"bronze", .fin 0, 30⟩
    CustomNodeClass := ⟨"solana-custom", .fin 0, 40⟩
    CustomNodes := [] }

/-- A pass with an empty stake table and one gossip node at `2.2.2.2`. -/
def unstakedPass : TickInput :=
  { voteAccounts := some ⟨[], []⟩
    clusterNodes := some [⟨"B", some "2.2.2.2:8001", none, none⟩] }

/-- No address is in the sets of two classes of `cfg.Classes[1:]` with different
names. -/
def TailDisjoint (cfg : Config) (s : IpSets) : Prop :=
  ∀ a, ∀ c1 ∈ cfg.Classes.tail, ∀ c2 ∈ cfg.Classes.tail,
    isMember s c1.Name a = true → isMember s c2.Name a = true → c1.Name = c2.Name

/-- A pass with an empty stake table and one gossip node at the address
`5.5.5.5` of the custom node of `sampleConfig`. -/
def customAddressPass : TickInput :=
  { voteAccounts := some ⟨[], []⟩
    clusterNodes := some [⟨"C", some "5.5.5.5:8001", none, none⟩] }

/-- The addresses that lines 508-532 collect for a node: none when the node has
no gossip address or the gossip address does not parse. -/
def collected (P : Parsers) (node : ClusterNode) : List String :=
  match node.Gossip with
  | none => []
  | some gossip =>
    match P.SplitHostPort gossip with
    | none => []
    | some (gossip_host, _) => addressesOf P node gossip_host

/-- The address is in the unstaked set and in the set of no other class of
`cfg.Classes[1:]`. -/
def UnstakedOnly (cfg : Config) (a : String) (s : IpSets) : Prop :=
  isMember s cfg.UnstakedClass.Name a = true ∧
    ∀ c ∈ cfg.Classes.tail, c.Name ≠ cfg.UnstakedClass.Name → isMember s c.Name a = false

/-- Flags of a run with stake updates and the local identity `validator`. -/
def localFlags : Flags := { sampleFlags with Pubkey := "validator" }

/-- A pass in which the local identity `validator` has stake and is seen in
gossip at `9.9.9.9` with TPU port 8003 and QUIC port 8009. -/
def localNodePass : TickInput :=
  { voteAccounts := some ⟨[⟨"validator", 50⟩, ⟨"A", 50⟩], []⟩
    clusterNodes := some
      [⟨"validator", some "9.9.9.9:8001", some "9.9.9.9:8003", some "9.9.9.9:8009"⟩] }

/-- A pass in which node `A` holds 3 of 100 staked units and is seen in gossip at
`1.1.1.1` with its TPU at `1.1.1.2`. -/
def stakedPass : TickInput :=
  { voteAccounts := some ⟨[⟨"A", 3⟩, ⟨"Z", 97⟩], []⟩
    clusterNodes := some
      [⟨"A", some "1.1.1.1:8001", some "1.1.1.2:8003", some "1.1.1.2:8009"⟩] }

/-- The gossip entry of node `A` in `stakedPass`. -/
def stakedNode : ClusterNode :=
  ⟨"A", some "1.1.1.1:8001", some "1.1.1.2:8003", some "1.1.1.2:8009"⟩

/-- A pass in which the staked node `A` has its TPU at the address `5.5.5.5` of
the custom node of `sampleConfig`. -/
def stakedCustomPass : TickInput :=
  { voteAccounts := some ⟨[⟨"A", 3⟩, ⟨"Z", 97⟩], []⟩
    clusterNodes := some
      [⟨"A", some "1.1.1.1:8001", some "5.5.5.5:8003", some "5.5.5.5:8009"⟩] }

/-- A pass in which node `A` holds 20 of 100 staked units and is seen in gossip
at `1.1.1.1` with its TPU at `1.1.1.2`. -/
def stakedFifthPass : TickInput :=
  { voteAccounts := some ⟨[⟨"A", 20⟩, ⟨"Z", 80⟩], []⟩
    clusterNodes := some
      [⟨"A", some "1.1.1.1:8001", some "1.1.1.2:8003", some "1.1.1.2:8009"⟩] }

/-- The per-port rules that the registry asks for in `mangle/PREROUTING`. -/
def mangleRulesOf (vp : ValidatorPorts) : List RuleSpec :=
  [mangleRule vp.TPUstr mangleChain, mangleRule vp.Fwdstr mangleChain,
    mangleRule vp.Votestr mangleChain, mangleRule vp.TPUquicstr mangleChain,
    mangleRule vp.TPUquicfwdstr mangleChain]

/-- The per-port rules that the registry asks for in `filter/INPUT`. -/
def inputRulesOf (vp : ValidatorPorts) : List RuleSpec :=
  [inputRule vp.TPUstr filterChain, inputRule vp.Fwdstr (filterChain ++ "-fwd"),
    inputRule vp.Votestr (filterChain ++ "-vote"),
    inputRule vp.TPUquicstr (filterChain ++ "-quic"),
    inputRule vp.TPUquicfwdstr (filterChain ++ "-quic-fwd")]

/-- The five service chains of the filter table. -/
def serviceChains : List String :=
  [filterChain, filterChain ++ "-fwd", filterChain ++ "-vote", filterChain ++ "-quic",
    filterChain ++ "-quic-fwd"]

/-- Whether a rule is a per-port dispatch rule of `mangle/PREROUTING`:
`-p udp --dport <port> -j solana-nodes` for some port. -/
def isMangleDispatch (spec : RuleSpec) : Bool :=
  decide (spec = mangleRule (spec.getD 3 "") mangleChain)

/-- Whether a rule is a per-port dispatch rule of `filter/INPUT`:
`-p udp --dport <port> -j <service chain>` for some port and service chain. -/
def isInputDispatch (spec : RuleSpec) : Bool :=
  decide (spec = inputRule (spec.getD 3 "") (spec.getD 5 "") ∧ spec.getD 5 "" ∈ serviceChains)

/-- The run of the sample parsers from the kernel `k` through the given passes. -/
def sampleRunFrom (k : Kernel) (flags : Flags) (cfgFile : Config) (passes : List TickInput) :
    State :=
  (runTicks sampleParsers flags (loadClasses cfgFile) passes
    (startup flags (loadClasses cfgFile) k)).getD (startup flags (loadClasses cfgFile) k)

/-- The kernel that a first run leaves behind when the process is killed after a
pass in which the local identity was seen with TPU port 8003 and QUIC port 8009:
nothing is torn down. -/
def leftoverKernel : Kernel :=
  { sets := (sampleRun localFlags sampleConfig [localNodePass]).sets
    ipt := (sampleRun localFlags sampleConfig [localNodePass]).ipt }

/-- A pass in which the local identity `validator` is seen with TPU port 9003 and
QUIC port 9009. -/
def movedPortsPass : TickInput :=
  { voteAccounts := some ⟨[⟨"validator", 50⟩, ⟨"A", 50⟩], []⟩
    clusterNodes := some
      [⟨"validator", some "9.9.9.9:8001", some "9.9.9.9:9003", some "9.9.9.9:9009"⟩] }

/-- The property `Q` holds in the state that a port step hands on. -/
def PortStep.holds (Q : State → Prop) : PortStep → Prop
  | .next st1 => Q st1
  | .stop st1 => Q st1
  | .crash => True

/-- Lines 472-489 on their own: the rules of the registered ports are deleted
when the TPU or the QUIC port differs from the registered one, the registry is
replaced and the rules of the new ports are inserted. -/
def updatePorts (st : State) (port quic_port : Int) : State :=
  { st with
    ipt := insertPortRules
      (match st.validatorPorts with
       | some vp =>
         if vp.TPU ≠ uint16 port ∨ vp.TPUquic ≠ uint16 quic_port then
           deletePortRules st.ipt vp
         else st.ipt
       | none => st.ipt)
      (NewValidatorPorts (uint16 port) (uint16 quic_port))
    validatorPorts := some (NewValidatorPorts (uint16 port) (uint16 quic_port)) }

/-- The rules of the list `m` that satisfy `D` are, each once, the rules in `S`. -/
def Tracks (D : RuleSpec → Bool) (m : List RuleSpec) (S : RuleSpec → Prop) : Prop :=
  (m.filter D).Nodup ∧ ∀ x, x ∈ m.filter D ↔ S x

/-- The per-port rules the registry asks for in `mangle/PREROUTING`; none when
the registry is empty. -/
def expectedMangle : Option ValidatorPorts → List RuleSpec
  | none => []
  | some vp => mangleRulesOf vp

/-- The per-port rules the registry asks for in `filter/INPUT`; none when the
registry is empty. -/
def expectedInput : Option ValidatorPorts → List RuleSpec
  | none => []
  | some vp => inputRulesOf vp

/-- The chains `mangle/PREROUTING` and `filter/INPUT` exist and hold no per-port
dispatch rule. -/
def HoldsNoPortRule (ipt : IpTables) : Prop :=
  ∃ m f, iptables.rules? ipt "mangle" "PREROUTING" = some m ∧
    iptables.rules? ipt "filter" "INPUT" = some f ∧
    (∀ spec ∈ m, isMangleDispatch spec = false) ∧
    (∀ spec ∈ f, isInputDispatch spec = false)

/-- The per-port dispatch rules of `mangle/PREROUTING` and of `filter/INPUT` are,
each once, the rules that the registry `validatorPorts` asks for. -/
def PortRulesMatch (st : State) : Prop :=
  ∃ m f, iptables.rules? st.ipt "mangle" "PREROUTING" = some m ∧
    iptables.rules? st.ipt "filter" "INPUT" = some f ∧
    Tracks isMangleDispatch m (fun spec => spec ∈ expectedMangle st.validatorPorts) ∧
    Tracks isInputDispatch f (fun spec => spec ∈ expectedInput st.validatorPorts)

/-- The registry is empty or was made by `NewValidatorPorts` from two `uint16`
values. -/
def RegistryMade (st : State) : Prop :=
  ∀ vp, st.validatorPorts = some vp →
    ∃ port quic_port : Int, vp = NewValidatorPorts (uint16 port) (uint16 quic_port)

/-- The states that a run started on the kernel `k` goes through, node by node:
the state after startup, the state after the port step of a node, the state after
the classification of a node. -/
inductive Visited (P : Parsers) (flags : Flags) (cfgFile : Config) (k : Kernel) :
    State → Prop
  | start : Visited P flags cfgFile k (startup flags (loadClasses cfgFile) k)
  | port (st st1 : State) (node : ClusterNode) :
      Visited P flags cfgFile k st →
      (portStep P flags node st = .next st1 ∨ portStep P flags node st = .stop st1) →
      Visited P flags cfgFile k st1
  | classify (st : State) (t : StakeTable) (node : ClusterNode) :
      Visited P flags cfgFile k st →
      Visited P flags cfgFile k
        { st with sets := classifyNode P (loadClasses cfgFile) t node st.sets }

/-- The per-port rules match the registry and the registry was made by
`NewValidatorPorts`. -/
def PortInv (st : State) : Prop := PortRulesMatch st ∧ RegistryMade st

/-- A configuration with a NaN threshold (`stake_percentage: .nan`) between two
ordinary staked classes. -/
def nanConfig : Config :=
  { Classes := [⟨"a", .fin (1 / 1000), 10⟩, ⟨"b", .nan, 20⟩, ⟨"c", .fin (1 / 100), 30⟩]
    UnstakedClass := ⟨"bronze", .fin 0, 30⟩
    CustomNodeClass := ⟨"solana-custom", .fin 0, 40⟩
    CustomNodes := [] }

/-- Two classes whose sets share an address have one name, or one of them has
the name of the unstaked class and the other is the first class
`cfg.Classes[0]`, which the deletions of the unstaked branch leave out. -/
def OverlapOnFirstOnly (cfg : Config) (s : IpSets) : Prop :=
  ∀ a, ∀ c1 ∈ cfg.Classes, ∀ c2 ∈ cfg.Classes,
    isMember s c1.Name a = true → isMember s c2.Name a = true →
      c1.Name = c2.Name ∨
        (c1.Name = cfg.UnstakedClass.Name ∧ cfg.Classes.head? = some c2) ∨
        (c2.Name = cfg.UnstakedClass.Name ∧ cfg.Classes.head? = some c1)

/-! ## Theorems -/

/-! ### Comparisons of `Float64` -/

theorem Float64.lt_def (a b : Float64) : a < b ↔ Float64.lt a b = true := Iff.rfl

theorem Float64.le_def (a b : Float64) : a ≤ b ↔ Float64.le a b = true := Iff.rfl

theorem Float64.ne_nan_of_lt {a b : Float64} (h : a < b) : a ≠ .nan ∧ b ≠ .nan := by
  rw [Float64.lt_def] at h
  cases a <;> cases b <;> simp [Float64.lt] at h ⊢

theorem Float64.le_refl_of_ne_nan {a : Float64} (h : a ≠ .nan) : a ≤ a := by
  rw [Float64.le_def]
  cases a <;> simp [Float64.le] at h ⊢

theorem Float64.le_of_lt {a b : Float64} (h : a < b) : a ≤ b := by
  rw [Float64.lt_def] at h
  rw [Float64.le_def]
  cases a <;> cases b <;> simp [Float64.lt, Float64.le] at h ⊢
  exact h.le

theorem Float64.le_of_not_lt {a b : Float64} (ha : a ≠ .nan) (hb : b ≠ .nan)
    (h : ¬ a < b) : b ≤ a := by
  rw [Float64.lt_def] at h
  rw [Float64.le_def]
  cases a <;> cases b <;> simp [Float64.lt, Float64.le] at h ha hb ⊢
  exact h

theorem Float64.le_trans {a b c : Float64} (hab : a ≤ b) (hbc : b ≤ c) : a ≤ c := by
  rw [Float64.le_def] at hab hbc ⊢
  cases a <;> cases b <;> cases c <;> simp [Float64.le] at hab hbc ⊢
  exact hab.trans hbc

/-! ### The sorted class list -/

theorem insertBack_perm (x : TrafficClass) (l : List TrafficClass) :
    (insertBack x l).Perm (x :: l) := by
  induction l with
  | nil => exact List.Perm.refl _
  | cons y ys ih =>
    unfold insertBack
    by_cases h : less x y
    · rw [if_pos h]
      exact ((List.Perm.cons y ih).trans (List.Perm.swap x y ys))
    · rw [if_neg h]

theorem foldl_insertBack_perm (xs acc : List TrafficClass) :
    (xs.foldl (fun sorted x => insertBack x sorted) acc).Perm (xs ++ acc) := by
  induction xs generalizing acc with
  | nil => exact List.Perm.refl _
  | cons x xs ih =>
    rw [List.foldl_cons]
    refine (ih (insertBack x acc)).trans ?_
    refine (List.Perm.append_left xs (insertBack_perm x acc)).trans ?_
    exact List.perm_middle

theorem SliceStable_perm (xs : List TrafficClass) : (SliceStable xs).Perm xs := by
  unfold SliceStable
  refine (List.reverse_perm _).trans ?_
  simpa using foldl_insertBack_perm xs []

/-- Without NaN, inserting keeps the reversed sorted part in ascending order. -/
theorem insertBack_sorted (x : TrafficClass) (l : List TrafficClass)
    (hx : x.Stake ≠ .nan) (hl : ∀ c ∈ l, c.Stake ≠ .nan)
    (hs : l.Pairwise (fun a b => a.Stake ≤ b.Stake)) :
    (insertBack x l).Pairwise (fun a b => a.Stake ≤ b.Stake) := by
  induction l with
  | nil => exact List.pairwise_singleton _ _
  | cons y ys ih =>
    rw [List.pairwise_cons] at hs
    have hy : y.Stake ≠ .nan := hl y (List.mem_cons_self _ _)
    unfold insertBack
    by_cases h : less x y
    · rw [if_pos h, List.pairwise_cons]
      refine ⟨?_, ih (fun c hc => hl c (List.mem_cons_of_mem _ hc)) hs.2⟩
      intro c hc
      rcases List.mem_cons.mp ((insertBack_perm x ys).mem_iff.mp hc) with rfl | hc
      · exact Float64.le_of_lt h
      · exact hs.1 c hc
    · rw [if_neg h, List.pairwise_cons]
      have hxy : x.Stake ≤ y.Stake := Float64.le_of_not_lt hy hx h
      refine ⟨?_, List.pairwise_cons.mpr hs⟩
      intro c hc
      rcases List.mem_cons.mp hc with rfl | hc
      · exact hxy
      · exact Float64.le_trans hxy (hs.1 c hc)

theorem foldl_insertBack_sorted (xs acc : List TrafficClass)
    (hxs : ∀ c ∈ xs, c.Stake ≠ .nan) (hacc : ∀ c ∈ acc, c.Stake ≠ .nan)
    (hs : acc.Pairwise (fun a b => a.Stake ≤ b.Stake)) :
    (xs.foldl (fun sorted x => insertBack x sorted) acc).Pairwise
      (fun a b => a.Stake ≤ b.Stake) := by
  induction xs generalizing acc with
  | nil => exact hs
  | cons x xs ih =>
    rw [List.foldl_cons]
    have hx : x.Stake ≠ .nan := hxs x (List.mem_cons_self _ _)
    apply ih _ (fun c hc => hxs c (List.mem_cons_of_mem _ hc))
    · intro c hc
      rcases List.mem_cons.mp ((insertBack_perm x acc).mem_iff.mp hc) with rfl | hc
      · exact hx
      · exact hacc c hc
    · exact insertBack_sorted x acc hx hacc hs

/-- Without a NaN threshold the sorted list is in descending order of
threshold. -/
theorem SliceStable_sorted (xs : List TrafficClass) (hxs : ∀ c ∈ xs, c.Stake ≠ .nan) :
    (SliceStable xs).Pairwise (fun a b => b.Stake ≤ a.Stake) := by
  unfold SliceStable
  rw [List.pairwise_reverse]
  exact foldl_insertBack_sorted xs [] hxs (fun c hc => by cases hc) List.Pairwise.nil

/-- The sort is stable: classes with the same threshold keep their order. -/
theorem SliceStable_keeps_order_of_equals :
    (SliceStable [⟨"a", .fin (1 / 2), 1⟩, ⟨"b", .fin 1, 2⟩, ⟨"c", .fin (1 / 2), 3⟩,
      ⟨"d", .fin 1, 4⟩]).map TrafficClass.Name = ["b", "d", "a", "c"] := by
  decide!

theorem selectClass_greatest (l : List TrafficClass) (percent : Float64)
    (hs : l.Pairwise (fun a b => b.Stake ≤ a.Stake)) (s : TrafficClass)
    (hsel : selectClass l percent = some s) :
    ∀ t ∈ l, t.Stake < percent → t.Stake ≤ s.Stake := by
  induction l with
  | nil => intro t ht; cases ht
  | cons x xs ih =>
    rw [List.pairwise_cons] at hs
    unfold selectClass at hsel
    rw [List.find?_cons] at hsel
    by_cases hx : percent > x.Stake
    · simp only [hx, decide_True] at hsel
      cases hsel
      intro t ht _
      rcases List.mem_cons.mp ht with rfl | ht
      · exact Float64.le_refl_of_ne_nan (Float64.ne_nan_of_lt hx).1
      · exact hs.1 t ht
    · simp only [hx, decide_False] at hsel
      intro t ht hlt
      rcases List.mem_cons.mp ht with rfl | ht
      · exact absurd hlt hx
      · exact ih hs.2 hsel t ht hlt

/-- The unstaked class is in the sorted class list. -/
theorem unstaked_mem_loadClasses (cfgFile : Config) :
    (loadClasses cfgFile).UnstakedClass ∈ (loadClasses cfgFile).Classes := by
  show _ ∈ SliceStable _
  rw [(SliceStable_perm _).mem_iff]
  simp [loadClasses]

/-! ### C1: the selected class -/

/-- C1 as stated fails: with the staked thresholds 0.001 (`a`), NaN (`b`, `.nan`
in the YAML file) and 0.01 (`c`), no comparison with NaN holds, the sort of
line 256 leaves the list as `a`, `b`, `solana-custom`, `c`, `bronze`, and at a
stake fraction of 2% the first class with `percent > threshold` is `a`, although
the threshold of `c` is also below 2% and greater than that of `a`. -/
theorem selectClass_not_greatest_with_nan :
    (loadClasses nanConfig).Classes.map TrafficClass.Name
      = ["a", "b", "solana-custom", "c", "bronze"] ∧
    selectClass (loadClasses nanConfig).Classes (percentOf 2 100)
      = some ⟨"a", .fin (1 / 1000), 10⟩ ∧
    (⟨"c", .fin (1 / 100), 30⟩ : TrafficClass) ∈ (loadClasses nanConfig).Classes ∧
    Float64.fin (1 / 100) < percentOf 2 100 ∧
    ¬ (Float64.fin (1 / 100) ≤ Float64.fin (1 / 1000)) := by
  refine ⟨?_, ?_, ?_, ?_, ?_⟩
  · decide!
  · decide!
  · decide!
  · decide!
  · decide!

/-- C1, amended. For every configuration in which no staked threshold is NaN, on
the class list that `main` builds (staked classes, the unstaked class at `-1`,
the custom class at `100`, stably sorted by threshold descending) and for every
stake fraction `percent`: if some class has a threshold strictly below `percent`,
the classifier selects a class of the list whose threshold is strictly below
`percent` and is the greatest such threshold. -/
theorem selectClass_loadClasses_greatest (cfg : Config)
    (hnan : ∀ c ∈ cfg.Classes, c.Stake ≠ Float64.nan) (percent : Float64)
    (h : ∃ t ∈ (loadClasses cfg).Classes, t.Stake < percent) :
    ∃ s, selectClass (loadClasses cfg).Classes percent = some s ∧
      s ∈ (loadClasses cfg).Classes ∧ s.Stake < percent ∧
      ∀ t ∈ (loadClasses cfg).Classes, t.Stake < percent → t.Stake ≤ s.Stake := by
  obtain ⟨t, ht, hlt⟩ := h
  have hsome : (selectClass (loadClasses cfg).Classes percent).isSome = true := by
    unfold selectClass
    rw [List.find?_isSome]
    exact ⟨t, ht, by simpa using hlt⟩
  obtain ⟨s, hs⟩ := Option.isSome_iff_exists.mp hsome
  have hsorted : (loadClasses cfg).Classes.Pairwise (fun a b => b.Stake ≤ a.Stake) := by
    apply SliceStable_sorted
    intro c hc
    simp only [List.mem_append, List.mem_singleton] at hc
    rcases hc with (hc | rfl) | rfl
    · exact hnan c hc
    · exact fun e => by cases e
    · exact fun e => by cases e
  refine ⟨s, hs, ?_, ?_, ?_⟩
  · unfold selectClass at hs
    exact List.mem_of_find?_eq_some hs
  · unfold selectClass at hs
    simpa using List.find?_some hs
  · exact selectClass_greatest _ percent hsorted s hs

/-- A use of `selectClass_loadClasses_greatest`: the scenario configuration has no
NaN threshold and at a stake fraction of 3% it has a class below it, so a
greatest such class is selected. -/
theorem selectClass_loadClasses_greatest_witness :
    (∀ c ∈ sampleConfig.Classes, c.Stake ≠ Float64.nan) ∧
    (∃ t ∈ (loadClasses sampleConfig).Classes, t.Stake < percentOf 3 100) ∧
    ∃ s, selectClass (loadClasses sampleConfig).Classes (percentOf 3 100) = some s ∧
      s ∈ (loadClasses sampleConfig).Classes ∧ s.Stake < percentOf 3 100 ∧
      ∀ t ∈ (loadClasses sampleConfig).Classes, t.Stake < percentOf 3 100 →
        t.Stake ≤ s.Stake :=
  have hnan : ∀ c ∈ sampleConfig.Classes, c.Stake ≠ Float64.nan := by decide!
  have h : ∃ t ∈ (loadClasses sampleConfig).Classes, t.Stake < percentOf 3 100 :=
    ⟨⟨"bronze", .fin (-1), 30⟩, by decide!, by decide!⟩
  ⟨hnan, h, selectClass_loadClasses_greatest sampleConfig hnan (percentOf 3 100) h⟩

/-! ### Membership after the set operations -/

theorem isMember_update (s : IpSets) (name : String) (f : String → Bool) (n b : String) :
    isMember (Function.update s name (some f)) n b
      = if n = name then f b else isMember s n b := by
  unfold isMember
  by_cases h : n = name
  · subst h; simp
  · simp [Function.update_noteq h, h]

theorem isMember_Add (s : IpSets) (name a n b : String) :
    isMember (ipset.Add name a s) n b
      = (isMember s n b || (decide (n = name) && decide (b = a) && (s name).isSome)) := by
  unfold ipset.Add
  cases hs : s name with
  | none => simp
  | some f =>
    rw [isMember_update]
    by_cases h : n = name
    · subst h
      by_cases hb : b = a
      · subst hb; simp
      · simp [isMember, hs, Function.update_noteq hb, hb]
    · simp [h]

theorem isMember_Del (s : IpSets) (name a n b : String) :
    isMember (ipset.Del name a s) n b
      = (isMember s n b && !(decide (n = name) && decide (b = a))) := by
  unfold ipset.Del
  cases hs : s name with
  | none =>
    by_cases h : n = name
    · subst h; simp [isMember, hs]
    · simp [h]
  | some f =>
    rw [isMember_update]
    by_cases h : n = name
    · subst h
      by_cases hb : b = a
      · subst hb; simp
      · simp [isMember, hs, Function.update_noteq hb, hb]
    · simp [h]

theorem isSome_Add (s : IpSets) (name a n : String) :
    (ipset.Add name a s n).isSome = (s n).isSome := by
  unfold ipset.Add
  cases hs : s name with
  | none => rfl
  | some f =>
    by_cases h : n = name
    · subst h; simp [hs]
    · simp [Function.update_noteq h]

theorem isSome_Del (s : IpSets) (name a n : String) :
    (ipset.Del name a s n).isSome = (s n).isSome := by
  unfold ipset.Del
  cases hs : s name with
  | none => rfl
  | some f =>
    by_cases h : n = name
    · subst h; simp [hs]
    · simp [Function.update_noteq h]

/-! ### The gossip set contains the class sets -/

theorem GossipSuperset.addGossip {cfg : Config} {s : IpSets} (h : GossipSuperset cfg s)
    (a : String) : GossipSuperset cfg (ipset.Add gossipSet a s) := by
  refine ⟨by rw [isSome_Add]; exact h.1, ?_⟩
  intro c hc b hb
  rw [isMember_Add] at hb ⊢
  rcases Bool.or_eq_true _ _ ▸ hb with hb | hb
  · simp [h.2 c hc b hb]
  · simp only [Bool.and_eq_true, decide_eq_true_eq] at hb
    simp [hb.1.2, h.1]

theorem GossipSuperset.addClass {cfg : Config} {s : IpSets} (h : GossipSuperset cfg s)
    (n a : String) (ha : isMember s gossipSet a = true) :
    GossipSuperset cfg (ipset.Add n a s) := by
  refine ⟨by rw [isSome_Add]; exact h.1, ?_⟩
  intro c hc b hb
  rw [isMember_Add] at hb ⊢
  rcases Bool.or_eq_true _ _ ▸ hb with hb | hb
  · simp [h.2 c hc b hb]
  · simp only [Bool.and_eq_true, decide_eq_true_eq] at hb
    rw [hb.1.2, ha]; rfl

theorem GossipSuperset.del {cfg : Config} {s : IpSets} (h : GossipSuperset cfg s)
    (n a : String) (hn : n ≠ gossipSet) : GossipSuperset cfg (ipset.Del n a s) := by
  refine ⟨by rw [isSome_Del]; exact h.1, ?_⟩
  intro c hc b hb
  rw [isMember_Del] at hb ⊢
  simp only [Bool.and_eq_true] at hb
  have hne : ¬ gossipSet = n := fun e => hn e.symm
  simp [h.2 c hc b hb.1, hne]

theorem isMember_addGossip_self (s : IpSets) (a : String) (h : (s gossipSet).isSome = true) :
    isMember (ipset.Add gossipSet a s) gossipSet a = true := by
  rw [isMember_Add]; simp [h]

theorem stakedStep_gossipSuperset {cfg : Config} (percent : Float64) (cls : TrafficClass)
    (acc : IpSets × Bool) (addr : String) (hn : cls.Name ≠ gossipSet)
    (h : GossipSuperset cfg acc.1) :
    GossipSuperset cfg (stakedStep percent cls acc addr).1 := by
  unfold stakedStep
  have h1 := h.addGossip addr
  have hm := isMember_addGossip_self acc.1 addr h.1
  by_cases hc : percent > cls.Stake ∧ acc.2 = false
  · simp only [hc, and_self, if_true]
    exact h1.addClass _ _ hm
  · simp only [hc, if_false]
    exact h1.del _ _ hn

theorem stakedBranch_gossipSuperset {cfg : Config} (percent : Float64) (addresses : List String)
    (s : IpSets) (hn : ∀ c ∈ cfg.Classes, c.Name ≠ gossipSet) (h : GossipSuperset cfg s) :
    GossipSuperset cfg (stakedBranch cfg percent addresses s) := by
  unfold stakedBranch
  have inner : ∀ (cls : TrafficClass), cls.Name ≠ gossipSet → ∀ (l : List String)
      (acc : IpSets × Bool), GossipSuperset cfg acc.1 →
      GossipSuperset cfg (l.foldl (stakedStep percent cls) acc).1 := by
    intro cls hcls l
    induction l with
    | nil => intro acc hacc; exact hacc
    | cons x xs ih =>
      intro acc hacc
      exact ih _ (stakedStep_gossipSuperset percent cls acc x hcls hacc)
  have outer : ∀ (cs : List TrafficClass), (∀ c ∈ cs, c.Name ≠ gossipSet) →
      ∀ (acc : IpSets × Bool), GossipSuperset cfg acc.1 →
      GossipSuperset cfg
        (cs.foldl (fun acc cls => addresses.tail.foldl (stakedStep percent cls) acc) acc).1 := by
    intro cs
    induction cs with
    | nil => intro _ acc hacc; exact hacc
    | cons c cs ih =>
      intro hcs acc hacc
      exact ih (fun d hd => hcs d (List.mem_cons_of_mem _ hd)) _
        (inner c (hcs c (List.mem_cons_self _ _)) _ acc hacc)
  exact outer cfg.Classes hn (s, false) h

theorem unstakedStep_gossipSuperset {cfg : Config} (s : IpSets) (addr : String)
    (hn : ∀ c ∈ cfg.Classes, c.Name ≠ gossipSet)
    (h : GossipSuperset cfg s) : GossipSuperset cfg (unstakedStep cfg s addr) := by
  unfold unstakedStep
  have h2 : GossipSuperset cfg
      (ipset.Add cfg.UnstakedClass.Name addr (ipset.Add gossipSet addr s)) :=
    (h.addGossip addr).addClass _ _ (isMember_addGossip_self s addr h.1)
  have dels : ∀ (cs : List TrafficClass), (∀ c ∈ cs, c.Name ≠ gossipSet) →
      ∀ (s0 : IpSets), GossipSuperset cfg s0 →
      GossipSuperset cfg (cs.foldl (fun s cls =>
        if cls.Name ≠ cfg.UnstakedClass.Name then ipset.Del cls.Name addr s else s) s0) := by
    intro cs
    induction cs with
    | nil => intro _ s0 h0; exact h0
    | cons c cs ih =>
      intro hcs s0 h0
      apply ih (fun d hd => hcs d (List.mem_cons_of_mem _ hd))
      by_cases hc : c.Name ≠ cfg.UnstakedClass.Name
      · simp only [hc, ne_eq, not_false_eq_true, if_true]
        exact h0.del _ _ (hcs c (List.mem_cons_self _ _))
      · simp only [hc, if_false]
        exact h0
  exact dels _ (fun c hc => hn c (List.mem_of_mem_tail hc)) _ h2

theorem unstakedBranch_gossipSuperset {cfg : Config} (addresses : List String) (s : IpSets)
    (hn : ∀ c ∈ cfg.Classes, c.Name ≠ gossipSet)
    (h : GossipSuperset cfg s) : GossipSuperset cfg (unstakedBranch cfg addresses s) := by
  unfold unstakedBranch
  induction addresses generalizing s with
  | nil => exact h
  | cons a as ih => exact ih _ (unstakedStep_gossipSuperset s a hn h)

/-- The three ways a gossip node is handled: no change, the staked branch, the
unstaked branch. -/
theorem classifyNode_cases (P : Parsers) (cfg : Config) (t : StakeTable)
    (node : ClusterNode) (s : IpSets) :
    classifyNode P cfg t node s = s ∨
    (∃ gossip gossip_host port, node.Gossip = some gossip ∧
      P.SplitHostPort gossip = some (gossip_host, port) ∧
      ((∃ stake, t.stakedPeers node.Pubkey = some stake ∧
          classifyNode P cfg t node s
            = stakedBranch cfg (percentOf stake t.totalStake)
                (addressesOf P node gossip_host) s) ∨
        (t.stakedPeers node.Pubkey = none ∧
          classifyNode P cfg t node s
            = unstakedBranch cfg (addressesOf P node gossip_host) s))) := by
  unfold classifyNode
  cases hg : node.Gossip with
  | none => exact Or.inl rfl
  | some gossip =>
    cases hp : P.SplitHostPort gossip with
    | none => left; simp only [hp]
    | some hostport =>
      obtain ⟨gossip_host, port⟩ := hostport
      right
      refine ⟨gossip, gossip_host, port, rfl, hp, ?_⟩
      cases hst : t.stakedPeers node.Pubkey with
      | none => right; simp only [hp, hst, and_self]
      | some stake => left; exact ⟨stake, rfl, by simp only [hp, hst]⟩

theorem classifyNode_gossipSuperset (P : Parsers) {cfg : Config} (t : StakeTable)
    (node : ClusterNode) (s : IpSets)
    (hn : ∀ c ∈ cfg.Classes, c.Name ≠ gossipSet)
    (h : GossipSuperset cfg s) : GossipSuperset cfg (classifyNode P cfg t node s) := by
  rcases classifyNode_cases P cfg t node s with e | ⟨_, _, _, _, _, ⟨_, _, e⟩ | ⟨_, e⟩⟩
  · rw [e]; exact h
  · rw [e]; exact stakedBranch_gossipSuperset _ _ s hn h
  · rw [e]; exact unstakedBranch_gossipSuperset _ s hn h

/-! ### The loop over the nodes and the sets -/

/-- The port step leaves the sets alone. -/
theorem portStep_sets (P : Parsers) (flags : Flags) (node : ClusterNode) (st : State) :
    (portStep P flags node st).keepsSets st.sets := by
  unfold portStep
  repeat' split
  all_goals simp [PortStep.keepsSets]

theorem portStep_next_sets (P : Parsers) (flags : Flags) (node : ClusterNode) (st st1 : State)
    (h : portStep P flags node st = .next st1) : st1.sets = st.sets := by
  have := portStep_sets P flags node st
  rw [h] at this; exact this

theorem portStep_stop_sets (P : Parsers) (flags : Flags) (node : ClusterNode) (st st1 : State)
    (h : portStep P flags node st = .stop st1) : st1.sets = st.sets := by
  have := portStep_sets P flags node st
  rw [h] at this; exact this

/-- A property of the sets that every node's classification keeps is kept by the
whole loop over the nodes. -/
theorem nodeLoop_sets_induction (P : Parsers) (flags : Flags) (cfg : Config) (t : StakeTable)
    (Inv : IpSets → Prop)
    (hstep : ∀ node s, Inv s → Inv (classifyNode P cfg t node s))
    (nodes : List ClusterNode) (st st1 : State)
    (h : nodeLoop P flags cfg t nodes st = some st1) (h0 : Inv st.sets) : Inv st1.sets := by
  induction nodes generalizing st with
  | nil =>
    unfold nodeLoop at h
    cases h; exact h0
  | cons node rest ih =>
    unfold nodeLoop at h
    cases hp : portStep P flags node st with
    | crash => rw [hp] at h; cases h
    | stop st2 =>
      rw [hp] at h
      cases h
      rw [portStep_stop_sets P flags node st _ hp]; exact h0
    | next st2 =>
      rw [hp] at h
      apply ih _ h
      show Inv (classifyNode P cfg t node st2.sets)
      rw [portStep_next_sets P flags node st _ hp]
      exact hstep node _ h0

/-- A property of the sets that every node's classification keeps is kept by a
pass of the loop, whatever the stake table is. -/
theorem tick_sets_induction (P : Parsers) (flags : Flags) (cfg : Config)
    (Inv : IpSets → Prop)
    (hstep : ∀ t node s, Inv s → Inv (classifyNode P cfg t node s))
    (inp : TickInput) (st st1 : State)
    (h : tick P flags cfg inp st = some st1) (h0 : Inv st.sets) : Inv st1.sets := by
  unfold tick at h
  generalize (if flags.UpdateIpSets = true then inp.voteAccounts.map (buildStakeTable flags)
    else some { stakedPeers := fun _ => none, totalStake := 0 }) = table at h
  cases table with
  | none => cases h; exact h0
  | some t =>
    cases hn : inp.clusterNodes with
    | none => rw [hn] at h; cases h; exact h0
    | some nodes =>
      rw [hn] at h
      exact nodeLoop_sets_induction P flags cfg t Inv (hstep t) _ st st1 h h0

/-- A property of the sets that holds at startup and that every node's
classification keeps holds in every reachable state. -/
theorem Reachable.sets_induction {P : Parsers} {flags : Flags} {cfgFile : Config}
    (Inv : IpSets → Prop)
    (hstart : ∀ k, Inv (startup flags (loadClasses cfgFile) k).sets)
    (hstep : ∀ t node s, Inv s → Inv (classifyNode P (loadClasses cfgFile) t node s))
    {st : State} (h : Reachable P flags cfgFile st) : Inv st.sets := by
  induction h with
  | start k => exact hstart k
  | pass st st1 inp _ htick ih =>
    exact tick_sets_induction P flags _ Inv hstep inp st st1 htick ih

/-! ### The sets at startup -/

theorem isMember_Flush_Create (s : IpSets) (n m a : String) :
    isMember (ipset.Flush n (ipset.Create n s)) m a
      = (isMember s m a && !decide (m = n)) := by
  unfold ipset.Flush ipset.Create
  cases hs : s n with
  | none =>
    simp only [Function.update_same, Function.update_idem]
    rw [isMember_update]
    by_cases h : m = n
    · subst h; simp
    · simp [h]
  | some f =>
    simp only [hs]
    rw [isMember_update]
    by_cases h : m = n
    · subst h; simp
    · simp [h]

theorem isSome_Flush_Create (s : IpSets) (n m : String) :
    (ipset.Flush n (ipset.Create n s) m).isSome = ((s m).isSome || decide (m = n)) := by
  unfold ipset.Flush ipset.Create
  cases hs : s n with
  | none =>
    simp only [Function.update_same, Function.update_idem]
    by_cases h : m = n
    · subst h; simp
    · simp [Function.update_noteq h, h]
  | some f =>
    simp only [hs]
    by_cases h : m = n
    · subst h; simp
    · simp [Function.update_noteq h, h]

theorem createSets_isMember (cfg : Config) (s : IpSets) (m a : String)
    (h : isMember (createSets cfg s) m a = true) :
    m ≠ gossipSet ∧ ∀ c ∈ cfg.Classes, c.Name ≠ m := by
  unfold createSets at h
  have fold : ∀ (cs : List TrafficClass) (s0 : IpSets),
      isMember (cs.foldl (fun s set => ipset.Flush set.Name (ipset.Create set.Name s)) s0) m a
        = true → isMember s0 m a = true ∧ ∀ c ∈ cs, c.Name ≠ m := by
    intro cs
    induction cs with
    | nil => intro s0 h0; exact ⟨h0, fun c hc => by cases hc⟩
    | cons c cs ih =>
      intro s0 h0
      obtain ⟨h1, h2⟩ := ih _ h0
      rw [isMember_Flush_Create] at h1
      simp only [Bool.and_eq_true, Bool.not_eq_true', decide_eq_false_iff_not] at h1
      refine ⟨h1.1, ?_⟩
      intro d hd
      rcases List.mem_cons.mp hd with rfl | hd
      · exact fun e => h1.2 e.symm
      · exact h2 d hd
  obtain ⟨h1, h2⟩ := fold _ _ h
  rw [isMember_Flush_Create] at h1
  simp only [Bool.and_eq_true, Bool.not_eq_true', decide_eq_false_iff_not] at h1
  exact ⟨h1.2, h2⟩

theorem createSets_isSome (cfg : Config) (s : IpSets) (m : String)
    (h : m = gossipSet ∨ ∃ c ∈ cfg.Classes, c.Name = m) :
    (createSets cfg s m).isSome = true := by
  unfold createSets
  have fold : ∀ (cs : List TrafficClass) (s0 : IpSets),
      ((s0 m).isSome = true ∨ ∃ c ∈ cs, c.Name = m) →
      ((cs.foldl (fun s set => ipset.Flush set.Name (ipset.Create set.Name s)) s0) m).isSome
        = true := by
    intro cs
    induction cs with
    | nil =>
      intro s0 h0
      rcases h0 with h0 | ⟨c, hc, _⟩
      · exact h0
      · cases hc
    | cons c cs ih =>
      intro s0 h0
      apply ih
      rcases h0 with h0 | ⟨d, hd, hdm⟩
      · left; rw [isSome_Flush_Create, h0]; rfl
      · rcases List.mem_cons.mp hd with rfl | hd
        · left; rw [isSome_Flush_Create]; simp [hdm]
        · right; exact ⟨d, hd, hdm⟩
  apply fold
  rcases h with h | h
  · left; rw [isSome_Flush_Create]; simp [h]
  · right; exact h

theorem seedCustomNodes_isSome (cfg : Config) (s : IpSets) (m : String) :
    (seedCustomNodes cfg s m).isSome = (s m).isSome := by
  unfold seedCustomNodes
  induction cfg.CustomNodes generalizing s with
  | nil => rfl
  | cons x xs ih =>
    rw [List.foldl_cons, ih, isSome_Add, isSome_Add]

theorem seedCustomNodes_isMember (cfg : Config) (s : IpSets) (m a : String)
    (h : isMember (seedCustomNodes cfg s) m a = true) :
    isMember s m a = true ∨ m = gossipSet ∨ m = cfg.CustomNodeClass.Name := by
  unfold seedCustomNodes at h
  generalize cfg.CustomNodes = l at h
  induction l generalizing s with
  | nil => exact Or.inl h
  | cons x xs ih =>
    rw [List.foldl_cons] at h
    rcases ih _ h with h1 | h1
    · rw [isMember_Add, isMember_Add] at h1
      simp only [Bool.or_eq_true, Bool.and_eq_true, decide_eq_true_eq] at h1
      rcases h1 with (h1 | h1) | h1
      · exact Or.inl h1
      · exact Or.inr (Or.inl h1.1.1)
      · exact Or.inr (Or.inr h1.1.1)
    · exact Or.inr h1

theorem seedCustomNodes_gossipSuperset (cfg : Config) (s : IpSets)
    (h : GossipSuperset cfg s) : GossipSuperset cfg (seedCustomNodes cfg s) := by
  unfold seedCustomNodes
  induction cfg.CustomNodes generalizing s with
  | nil => exact h
  | cons x xs ih =>
    rw [List.foldl_cons]
    exact ih _ ((h.addGossip x.Ip).addClass _ _ (isMember_addGossip_self s x.Ip h.1))

theorem startup_gossipSuperset (flags : Flags) (cfg : Config) (k : Kernel) :
    GossipSuperset cfg (startup flags cfg k).sets := by
  show GossipSuperset cfg (seedCustomNodes cfg (createSets cfg k.sets))
  apply seedCustomNodes_gossipSuperset
  refine ⟨createSets_isSome cfg _ _ (Or.inl rfl), ?_⟩
  intro c hc a ha
  exact absurd rfl ((createSets_isMember cfg _ _ _ ha).2 c hc)

/-! ### Reachable states -/

theorem Reachable.of_runTicks {P : Parsers} {flags : Flags} {cfgFile : Config}
    (passes : List TickInput) {st st1 : State} (h : Reachable P flags cfgFile st)
    (hrun : runTicks P flags (loadClasses cfgFile) passes st = some st1) :
    Reachable P flags cfgFile st1 := by
  induction passes generalizing st with
  | nil =>
    unfold runTicks at hrun
    cases hrun; exact h
  | cons inp rest ih =>
    unfold runTicks at hrun
    cases ht : tick P flags (loadClasses cfgFile) inp st with
    | none => rw [ht] at hrun; cases hrun
    | some st2 =>
      rw [ht] at hrun
      exact ih (Reachable.pass st st2 inp h ht) hrun

theorem sampleRun_reachable (flags : Flags) (cfgFile : Config) (passes : List TickInput) :
    Reachable sampleParsers flags cfgFile (sampleRun flags cfgFile passes) := by
  unfold sampleRun
  cases h : runTicks sampleParsers flags (loadClasses cfgFile) passes
      (startup flags (loadClasses cfgFile) freshKernel) with
  | none => exact Reachable.start freshKernel
  | some st => exact Reachable.of_runTicks passes (Reachable.start freshKernel) h

/-! ### C5: the gossip set and the class sets -/

/-- C5 as stated fails: with a staked class named `solana-gossip` the unstaked
branch adds the address `2.2.2.2` to the gossip set and to the unstaked set
`bronze`, and then deletes it from the class set `solana-gossip`, which is the
gossip set. All set operations succeed. -/
theorem gossip_superset_fails_on_name_clash :
    (isMember (sampleRun sampleFlags clashConfig [unstakedPass]).sets "bronze" "2.2.2.2",
      isMember (sampleRun sampleFlags clashConfig [unstakedPass]).sets gossipSet "2.2.2.2")
      = (true, false) := by
  decide!

/-- C5, amended. When no class is named like the gossip set `solana-gossip`, in
every state reachable from startup by passes of the loop, every member of the set
of any class (staked, unstaked or custom) is a member of the gossip set. -/
theorem gossip_superset (P : Parsers) (flags : Flags) (cfgFile : Config)
    (hn : ∀ c ∈ (loadClasses cfgFile).Classes, c.Name ≠ gossipSet)
    (st : State) (h : Reachable P flags cfgFile st) :
    ∀ c ∈ (loadClasses cfgFile).Classes, ∀ a,
      isMember st.sets c.Name a = true → isMember st.sets gossipSet a = true := by
  have key : GossipSuperset (loadClasses cfgFile) st.sets :=
    Reachable.sets_induction (GossipSuperset (loadClasses cfgFile))
      (fun k => startup_gossipSuperset flags _ k)
      (fun t node s hs => classifyNode_gossipSuperset P t node s hn hs) h
  exact key.2

/-- A use of `gossip_superset`: after a pass over the scenario configuration the
address `2.2.2.2` of the unstaked set `bronze` is in the gossip set. -/
theorem gossip_superset_witness :
    isMember (sampleRun sampleFlags sampleConfig [unstakedPass]).sets "bronze" "2.2.2.2" = true ∧
      isMember (sampleRun sampleFlags sampleConfig [unstakedPass]).sets gossipSet "2.2.2.2"
        = true :=
  have hm : isMember (sampleRun sampleFlags sampleConfig [unstakedPass]).sets
      "bronze" "2.2.2.2" = true := by decide!
  ⟨hm, gossip_superset sampleParsers sampleFlags sampleConfig (by decide!) _
    (sampleRun_reachable _ _ _) ⟨"bronze", .fin (-1), 30⟩ (by decide!) "2.2.2.2" hm⟩

/-! ### The staked branch, address by address -/

theorem addressesOf_tail (P : Parsers) (node : ClusterNode) (gossip_host : String) :
    (addressesOf P node gossip_host).tail = [] ∨
      ∃ t, (addressesOf P node gossip_host).tail = [t] := by
  unfold addressesOf
  simp only [List.singleton_append, List.tail_cons]
  repeat' split
  all_goals simp

theorem stakedStep_other (percent : Float64) (cls : TrafficClass) (acc : IpSets × Bool)
    (addr n b : String) (hb : b ≠ addr) :
    isMember (stakedStep percent cls acc addr).1 n b = isMember acc.1 n b := by
  unfold stakedStep
  by_cases hc : percent > cls.Stake ∧ acc.2 = false
  · simp only [hc, and_self, if_true]
    rw [isMember_Add, isMember_Add]; simp [hb]
  · simp only [hc, if_false]
    rw [isMember_Del, isMember_Add]; simp [hb]

theorem stakedBranch_nil_tail (cfg : Config) (percent : Float64) (addresses : List String)
    (s : IpSets) (h : addresses.tail = []) : stakedBranch cfg percent addresses s = s := by
  unfold stakedBranch
  rw [h]
  simp only [List.foldl_nil]
  induction cfg.Classes with
  | nil => rfl
  | cons c cs _ => simp

/-- Once the flag `added` is set, the loop over the classes only deletes: a set
that holds `t` at the end held it before and is the set of no class. -/
theorem stakedLoop_added (percent : Float64) (t : String) (cs : List TrafficClass) (s : IpSets)
    (n : String) (hn : n ≠ gossipSet)
    (h : isMember (cs.foldl (fun acc cls => stakedStep percent cls acc t) (s, true)).1 n t
      = true) :
    isMember s n t = true ∧ ∀ c ∈ cs, c.Name ≠ n := by
  induction cs generalizing s with
  | nil => exact ⟨h, fun c hc => by cases hc⟩
  | cons c cs ih =>
    rw [List.foldl_cons] at h
    have hstep : stakedStep percent c (s, true) t
        = (ipset.Del c.Name t (ipset.Add gossipSet t s), true) := by
      unfold stakedStep; simp
    rw [hstep] at h
    obtain ⟨h1, h2⟩ := ih _ h
    rw [isMember_Del, isMember_Add] at h1
    simp only [hn, decide_False, Bool.false_and, Bool.or_false, decide_True, Bool.and_true,
      Bool.and_eq_true, Bool.not_eq_true', decide_eq_false_iff_not] at h1
    refine ⟨h1.1, ?_⟩
    intro d hd
    rcases List.mem_cons.mp hd with rfl | hd
    · exact fun e => h1.2 e.symm
    · exact h2 d hd

/-- The loop over the classes for one address `t`: there is one name `n0` such
that every other set that holds `t` at the end held it before and is the set of
no class. -/
theorem stakedLoop_single (percent : Float64) (t : String) (cs : List TrafficClass) (s : IpSets)
    (b : Bool) :
    ∃ n0, ∀ n, n ≠ gossipSet →
      isMember (cs.foldl (fun acc cls => stakedStep percent cls acc t) (s, b)).1 n t = true →
      n ≠ n0 → isMember s n t = true ∧ ∀ c ∈ cs, c.Name ≠ n := by
  cases b with
  | true => exact ⟨"", fun n hn h _ => stakedLoop_added percent t cs s n hn h⟩
  | false =>
    induction cs generalizing s with
    | nil => exact ⟨"", fun n _ h _ => ⟨h, fun c hc => by cases hc⟩⟩
    | cons c cs ih =>
      by_cases hc : percent > c.Stake
      · have hstep : stakedStep percent c (s, false) t
            = (ipset.Add c.Name t (ipset.Add gossipSet t s), true) := by
          unfold stakedStep; simp [hc]
        refine ⟨c.Name, ?_⟩
        intro n hn h hne
        rw [List.foldl_cons, hstep] at h
        obtain ⟨h1, h2⟩ := stakedLoop_added percent t cs _ n hn h
        rw [isMember_Add, isMember_Add] at h1
        simp only [hn, hne, decide_False, Bool.false_and, Bool.or_false] at h1
        refine ⟨h1, ?_⟩
        intro d hd
        rcases List.mem_cons.mp hd with rfl | hd
        · exact fun e => hne e.symm
        · exact h2 d hd
      · have hstep : stakedStep percent c (s, false) t
            = (ipset.Del c.Name t (ipset.Add gossipSet t s), false) := by
          unfold stakedStep; simp [hc]
        obtain ⟨n0, hn0⟩ := ih (ipset.Del c.Name t (ipset.Add gossipSet t s))
        refine ⟨n0, ?_⟩
        intro n hn h hne
        rw [List.foldl_cons, hstep] at h
        obtain ⟨h1, h2⟩ := hn0 n hn h hne
        rw [isMember_Del, isMember_Add] at h1
        simp only [hn, decide_False, Bool.false_and, Bool.or_false, decide_True, Bool.and_true,
          Bool.and_eq_true, Bool.not_eq_true', decide_eq_false_iff_not] at h1
        refine ⟨h1.1, ?_⟩
        intro d hd
        rcases List.mem_cons.mp hd with rfl | hd
        · exact fun e => h1.2 e.symm
        · exact h2 d hd

theorem stakedLoop_other (percent : Float64) (t : String) (cs : List TrafficClass)
    (acc : IpSets × Bool) (n b : String) (hb : b ≠ t) :
    isMember (cs.foldl (fun acc cls => stakedStep percent cls acc t) acc).1 n b
      = isMember acc.1 n b := by
  induction cs generalizing acc with
  | nil => rfl
  | cons c cs ih => rw [List.foldl_cons, ih, stakedStep_other _ _ _ _ _ _ hb]

theorem stakedBranch_single (cfg : Config) (percent : Float64) (addresses : List String)
    (s : IpSets) (t : String) (h : addresses.tail = [t]) :
    stakedBranch cfg percent addresses s
      = (cfg.Classes.foldl (fun acc cls => stakedStep percent cls acc t) (s, false)).1 := by
  unfold stakedBranch
  rw [h]
  rfl

theorem stakedBranch_tailDisjoint (cfg : Config) (percent : Float64) (addresses : List String)
    (s : IpSets) (hshape : addresses.tail = [] ∨ ∃ t, addresses.tail = [t])
    (hn : ∀ c ∈ cfg.Classes, c.Name ≠ gossipSet) (h : TailDisjoint cfg s) :
    TailDisjoint cfg (stakedBranch cfg percent addresses s) := by
  rcases hshape with h0 | ⟨t, ht⟩
  · rw [stakedBranch_nil_tail _ _ _ _ h0]; exact h
  · rw [stakedBranch_single _ _ _ _ t ht]
    intro a c1 hc1 c2 hc2 h1 h2
    by_cases ha : a = t
    · subst ha
      obtain ⟨n0, hn0⟩ := stakedLoop_single percent a cfg.Classes s false
      have e1 : c1.Name = n0 := by
        by_contra hne
        exact (hn0 c1.Name (hn c1 (List.mem_of_mem_tail hc1)) h1 hne).2 c1
          (List.mem_of_mem_tail hc1) rfl
      have e2 : c2.Name = n0 := by
        by_contra hne
        exact (hn0 c2.Name (hn c2 (List.mem_of_mem_tail hc2)) h2 hne).2 c2
          (List.mem_of_mem_tail hc2) rfl
      rw [e1, e2]
    · rw [stakedLoop_other _ _ _ _ _ _ ha] at h1 h2
      exact h a c1 hc1 c2 hc2 h1 h2

/-! ### The unstaked branch, address by address -/

/-- The deletions of lines 561-565: membership after them. -/
theorem isMember_unstakedDels (u addr : String) (cs : List TrafficClass) (s : IpSets)
    (n b : String) :
    isMember (cs.foldl (fun s cls =>
        if cls.Name ≠ u then ipset.Del cls.Name addr s else s) s) n b
      = (isMember s n b &&
          !(decide (b = addr) && decide (n ≠ u) && cs.any (fun c => decide (c.Name = n)))) := by
  induction cs generalizing s with
  | nil => simp
  | cons c cs ih =>
    rw [List.foldl_cons, ih]
    by_cases hc : c.Name ≠ u
    · simp only [hc, ne_eq, not_false_eq_true, if_true]
      rw [isMember_Del]
      by_cases hb : b = addr
      · by_cases hcn : c.Name = n
        · subst hcn; subst hb
          simp [hc]
        · have hnc : ¬ n = c.Name := fun e => hcn e.symm
          simp [hcn, hnc]
      · simp [hb]
    · simp only [hc, if_false]
      by_cases hcn : c.Name = n
      · subst hcn
        simp only [ne_eq, not_not] at hc
        simp [hc]
      · simp [hcn]

theorem isMember_unstakedStep_other (cfg : Config) (s : IpSets) (addr n b : String)
    (hb : b ≠ addr) : isMember (unstakedStep cfg s addr) n b = isMember s n b := by
  unfold unstakedStep
  rw [isMember_unstakedDels, isMember_Add, isMember_Add]
  simp [hb]

theorem isMember_unstakedStep_tail (cfg : Config) (s : IpSets) (addr : String)
    (c : TrafficClass) (hc : c ∈ cfg.Classes.tail) (hu : c.Name ≠ cfg.UnstakedClass.Name) :
    isMember (unstakedStep cfg s addr) c.Name addr = false := by
  unfold unstakedStep
  rw [isMember_unstakedDels]
  have : cfg.Classes.tail.any (fun d => decide (d.Name = c.Name)) = true :=
    List.any_eq_true.mpr ⟨c, hc, by simp⟩
  simp [hu, this]

theorem isMember_unstakedStep_unstaked (cfg : Config) (s : IpSets) (addr : String)
    (hs : (s cfg.UnstakedClass.Name).isSome = true) :
    isMember (unstakedStep cfg s addr) cfg.UnstakedClass.Name addr = true := by
  unfold unstakedStep
  rw [isMember_unstakedDels, isMember_Add, isSome_Add]
  simp [hs]

theorem isSome_unstakedStep (cfg : Config) (s : IpSets) (addr n : String) :
    (unstakedStep cfg s addr n).isSome = (s n).isSome := by
  unfold unstakedStep
  have dels : ∀ (cs : List TrafficClass) (s0 : IpSets),
      ((cs.foldl (fun s cls =>
        if cls.Name ≠ cfg.UnstakedClass.Name then ipset.Del cls.Name addr s else s) s0) n).isSome
        = (s0 n).isSome := by
    intro cs
    induction cs with
    | nil => intro s0; rfl
    | cons c cs ih =>
      intro s0
      rw [List.foldl_cons, ih]
      by_cases hc : c.Name ≠ cfg.UnstakedClass.Name
      · simp only [hc, ne_eq, not_false_eq_true, if_true]; rw [isSome_Del]
      · simp only [hc, if_false]
  rw [dels, isSome_Add, isSome_Add]

theorem unstakedStep_tailDisjoint (cfg : Config) (s : IpSets) (addr : String)
    (h : TailDisjoint cfg s) : TailDisjoint cfg (unstakedStep cfg s addr) := by
  intro a c1 hc1 c2 hc2 h1 h2
  by_cases ha : a = addr
  · subst ha
    have e1 : c1.Name = cfg.UnstakedClass.Name := by
      by_contra hne
      rw [isMember_unstakedStep_tail cfg s a c1 hc1 hne] at h1
      cases h1
    have e2 : c2.Name = cfg.UnstakedClass.Name := by
      by_contra hne
      rw [isMember_unstakedStep_tail cfg s a c2 hc2 hne] at h2
      cases h2
    rw [e1, e2]
  · rw [isMember_unstakedStep_other _ _ _ _ _ ha] at h1 h2
    exact h a c1 hc1 c2 hc2 h1 h2

theorem unstakedBranch_tailDisjoint (cfg : Config) (addresses : List String) (s : IpSets)
    (h : TailDisjoint cfg s) : TailDisjoint cfg (unstakedBranch cfg addresses s) := by
  unfold unstakedBranch
  induction addresses generalizing s with
  | nil => exact h
  | cons a as ih => exact ih _ (unstakedStep_tailDisjoint cfg s a h)

theorem classifyNode_tailDisjoint (P : Parsers) (cfg : Config) (t : StakeTable)
    (node : ClusterNode) (s : IpSets) (hn : ∀ c ∈ cfg.Classes, c.Name ≠ gossipSet)
    (h : TailDisjoint cfg s) : TailDisjoint cfg (classifyNode P cfg t node s) := by
  rcases classifyNode_cases P cfg t node s with e | ⟨_, _, _, _, _, ⟨_, _, e⟩ | ⟨_, e⟩⟩
  · rw [e]; exact h
  · rw [e]; exact stakedBranch_tailDisjoint _ _ _ s (addressesOf_tail P node _) hn h
  · rw [e]; exact unstakedBranch_tailDisjoint _ _ s h

theorem startup_tailDisjoint (flags : Flags) (cfg : Config) (k : Kernel)
    (hn : ∀ c ∈ cfg.Classes, c.Name ≠ gossipSet) :
    TailDisjoint cfg (startup flags cfg k).sets := by
  intro a c1 hc1 c2 hc2 h1 h2
  have once : ∀ c ∈ cfg.Classes.tail,
      isMember (seedCustomNodes cfg (createSets cfg k.sets)) c.Name a = true →
      c.Name = cfg.CustomNodeClass.Name := by
    intro c hc hm
    rcases seedCustomNodes_isMember cfg _ _ _ hm with h0 | h0 | h0
    · exact absurd rfl ((createSets_isMember cfg _ _ _ h0).2 c (List.mem_of_mem_tail hc))
    · exact absurd h0 (hn c (List.mem_of_mem_tail hc))
    · exact h0
  rw [once c1 hc1 h1, once c2 hc2 h2]

/-! ### The staked branch adds to the selected class -/

theorem stakedLoop_keeps (percent : Float64) (t : String) (cs : List TrafficClass) (s : IpSets)
    (n : String) (hn : ∀ c ∈ cs, c.Name ≠ n) (h : isMember s n t = true) :
    isMember (cs.foldl (fun acc cls => stakedStep percent cls acc t) (s, true)).1 n t
      = true := by
  induction cs generalizing s with
  | nil => exact h
  | cons c cs ih =>
    have hstep : stakedStep percent c (s, true) t
        = (ipset.Del c.Name t (ipset.Add gossipSet t s), true) := by
      unfold stakedStep; simp
    rw [List.foldl_cons, hstep]
    have hne : ¬ n = c.Name := fun e => hn c (List.mem_cons_self _ _) e.symm
    refine ih _ (fun d hd => hn d (List.mem_cons_of_mem _ hd)) ?_
    rw [isMember_Del, isMember_Add, h]
    simp [hne]

/-- With unique class names, the loop over the classes leaves the address in the
set of the class that `selectClass` names, provided that set exists. -/
theorem stakedLoop_adds_selected (percent : Float64) (t : String) (cs : List TrafficClass)
    (s : IpSets) (c : TrafficClass) (hsel : selectClass cs percent = some c)
    (hnodup : (cs.map TrafficClass.Name).Nodup) (hex : (s c.Name).isSome = true) :
    isMember (cs.foldl (fun acc cls => stakedStep percent cls acc t) (s, false)).1 c.Name t
      = true := by
  induction cs generalizing s with
  | nil => cases hsel
  | cons x xs ih =>
    rw [List.map_cons, List.nodup_cons] at hnodup
    unfold selectClass at hsel
    rw [List.find?_cons] at hsel
    by_cases hx : percent > x.Stake
    · simp only [hx, decide_True] at hsel
      have hxc : x = c := Option.some.inj hsel
      have hstep : stakedStep percent x (s, false) t
          = (ipset.Add x.Name t (ipset.Add gossipSet t s), true) := by
        unfold stakedStep; simp [hx]
      rw [List.foldl_cons, hstep, ← hxc]
      rw [← hxc] at hex
      apply stakedLoop_keeps
      · intro d hd e
        exact hnodup.1 (List.mem_map.mpr ⟨d, hd, e⟩)
      · rw [isMember_Add, isSome_Add, hex]; simp
    · simp only [hx, decide_False] at hsel
      have hstep : stakedStep percent x (s, false) t
          = (ipset.Del x.Name t (ipset.Add gossipSet t s), false) := by
        unfold stakedStep; simp [hx]
      rw [List.foldl_cons, hstep]
      exact ih _ hsel hnodup.2 (by rw [isSome_Del, isSome_Add]; exact hex)

/-- The staked branch on a node whose TPU host `t` differs from its gossip host:
`t` ends in the set of the selected class. -/
theorem stakedBranch_adds_selected (cfg : Config) (percent : Float64) (addresses : List String)
    (s : IpSets) (t : String) (c : TrafficClass) (ht : addresses.tail = [t])
    (hsel : selectClass cfg.Classes percent = some c)
    (hnodup : (cfg.Classes.map TrafficClass.Name).Nodup) (hex : (s c.Name).isSome = true) :
    isMember (stakedBranch cfg percent addresses s) c.Name t = true := by
  rw [stakedBranch_single _ _ _ _ t ht]
  exact stakedLoop_adds_selected percent t cfg.Classes s c hsel hnodup hex

/-! ### The class sets overlap on the first class only -/

theorem stakedBranch_overlapOnFirstOnly (cfg : Config) (percent : Float64)
    (addresses : List String) (s : IpSets)
    (hshape : addresses.tail = [] ∨ ∃ t, addresses.tail = [t])
    (hn : ∀ c ∈ cfg.Classes, c.Name ≠ gossipSet) (h : OverlapOnFirstOnly cfg s) :
    OverlapOnFirstOnly cfg (stakedBranch cfg percent addresses s) := by
  rcases hshape with h0 | ⟨t, ht⟩
  · rw [stakedBranch_nil_tail _ _ _ _ h0]; exact h
  · rw [stakedBranch_single _ _ _ _ t ht]
    intro a c1 hc1 c2 hc2 h1 h2
    by_cases ha : a = t
    · subst ha
      obtain ⟨n0, hn0⟩ := stakedLoop_single percent a cfg.Classes s false
      have e1 : c1.Name = n0 := by
        by_contra hne
        exact (hn0 c1.Name (hn c1 hc1) h1 hne).2 c1 hc1 rfl
      have e2 : c2.Name = n0 := by
        by_contra hne
        exact (hn0 c2.Name (hn c2 hc2) h2 hne).2 c2 hc2 rfl
      left
      rw [e1, e2]
    · rw [stakedLoop_other _ _ _ _ _ _ ha] at h1 h2
      exact h a c1 hc1 c2 hc2 h1 h2

/-- After the unstaked branch handled `addr`, a class whose set holds `addr` has
the name of the unstaked class or is the first class. -/
theorem unstakedStep_holders (cfg : Config) (s : IpSets) (addr : String) (c : TrafficClass)
    (hc : c ∈ cfg.Classes) (hm : isMember (unstakedStep cfg s addr) c.Name addr = true) :
    c.Name = cfg.UnstakedClass.Name ∨ cfg.Classes.head? = some c := by
  by_cases hu : c.Name = cfg.UnstakedClass.Name
  · exact Or.inl hu
  · right
    cases hcl : cfg.Classes with
    | nil => rw [hcl] at hc; cases hc
    | cons x xs =>
      rw [hcl] at hc
      rcases List.mem_cons.mp hc with rfl | hx
      · rfl
      · have ht : c ∈ cfg.Classes.tail := by rw [hcl]; exact hx
        rw [isMember_unstakedStep_tail cfg s addr c ht hu] at hm
        cases hm

theorem unstakedStep_overlapOnFirstOnly (cfg : Config) (s : IpSets) (addr : String)
    (h : OverlapOnFirstOnly cfg s) : OverlapOnFirstOnly cfg (unstakedStep cfg s addr) := by
  intro a c1 hc1 c2 hc2 h1 h2
  by_cases ha : a = addr
  · subst ha
    rcases unstakedStep_holders cfg s a c1 hc1 h1 with e1 | e1
    · rcases unstakedStep_holders cfg s a c2 hc2 h2 with e2 | e2
      · left; rw [e1, e2]
      · exact Or.inr (Or.inl ⟨e1, e2⟩)
    · rcases unstakedStep_holders cfg s a c2 hc2 h2 with e2 | e2
      · exact Or.inr (Or.inr ⟨e2, e1⟩)
      · left
        rw [Option.some.inj (e1.symm.trans e2)]
  · rw [isMember_unstakedStep_other _ _ _ _ _ ha] at h1 h2
    exact h a c1 hc1 c2 hc2 h1 h2

theorem unstakedBranch_overlapOnFirstOnly (cfg : Config) (addresses : List String)
    (s : IpSets) (h : OverlapOnFirstOnly cfg s) :
    OverlapOnFirstOnly cfg (unstakedBranch cfg addresses s) := by
  unfold unstakedBranch
  induction addresses generalizing s with
  | nil => exact h
  | cons a as ih => exact ih _ (unstakedStep_overlapOnFirstOnly cfg s a h)

theorem classifyNode_overlapOnFirstOnly (P : Parsers) (cfg : Config) (t : StakeTable)
    (node : ClusterNode) (s : IpSets) (hn : ∀ c ∈ cfg.Classes, c.Name ≠ gossipSet)
    (h : OverlapOnFirstOnly cfg s) : OverlapOnFirstOnly cfg (classifyNode P cfg t node s) := by
  rcases classifyNode_cases P cfg t node s with e | ⟨_, _, _, _, _, ⟨_, _, e⟩ | ⟨_, e⟩⟩
  · rw [e]; exact h
  · rw [e]; exact stakedBranch_overlapOnFirstOnly _ _ _ s (addressesOf_tail P node _) hn h
  · rw [e]; exact unstakedBranch_overlapOnFirstOnly _ _ s h

theorem startup_overlapOnFirstOnly (flags : Flags) (cfg : Config) (k : Kernel)
    (hn : ∀ c ∈ cfg.Classes, c.Name ≠ gossipSet) :
    OverlapOnFirstOnly cfg (startup flags cfg k).sets := by
  intro a c1 hc1 c2 hc2 h1 h2
  have once : ∀ c ∈ cfg.Classes,
      isMember (seedCustomNodes cfg (createSets cfg k.sets)) c.Name a = true →
      c.Name = cfg.CustomNodeClass.Name := by
    intro c hc hm
    rcases seedCustomNodes_isMember cfg _ _ _ hm with h0 | h0 | h0
    · exact absurd rfl ((createSets_isMember cfg _ _ _ h0).2 c hc)
    · exact absurd h0 (hn c hc)
    · exact h0
  left
  rw [once c1 hc1 h1, once c2 hc2 h2]

/-! ### C4: an address in two class sets -/

/-- C4, the code at a failing input. The class names of the scenario configuration
are unique, the custom node `5.5.5.5` is seeded into the custom set, and after a
pass in which an unstaked gossip node has that address it is a member of two class
sets, the custom set `solana-custom` and the unstaked set `bronze`: the unstaked
branch deletes from `cfg.Classes[1:]` only, which leaves out the custom class,
where the staked branch deletes from every class of `cfg.Classes`. -/
theorem membership_uniqueness_fails_on_custom_address :
    ((loadClasses sampleConfig).Classes.map TrafficClass.Name).Nodup ∧
    (isMember (sampleRun sampleFlags sampleConfig [customAddressPass]).sets
        "solana-custom" "5.5.5.5",
      isMember (sampleRun sampleFlags sampleConfig [customAddressPass]).sets
        "bronze" "5.5.5.5") = (true, true) := by
  constructor
  · decide!
  · decide!

/-- Why the two theorems below ask that no class is named `solana-gossip`: with
such a class (names still unique) the staked branch deletes the TPU host
`1.1.1.2` from that class set, adds it to `bronze`, and the gossip add of
line 542 puts it back into the set `solana-gossip`; both classes are in
`cfg.Classes[1:]`. -/
theorem tier_sets_overlap_on_gossip_name :
    ((loadClasses clashConfig).Classes.map TrafficClass.Name).Nodup ∧
    (loadClasses clashConfig).Classes.tail.map TrafficClass.Name = ["solana-gossip", "bronze"] ∧
    (isMember (sampleRun sampleFlags clashConfig [stakedFifthPass]).sets
        "solana-gossip" "1.1.1.2",
      isMember (sampleRun sampleFlags clashConfig [stakedFifthPass]).sets
        "bronze" "1.1.1.2") = (true, true) := by
  refine ⟨?_, ?_, ?_⟩
  · decide!
  · decide!
  · decide!

/-- With unique class names, none of them the name `solana-gossip` of the gossip
set, in every state reachable from startup by passes of the loop two different
classes of `cfg.Classes` whose sets share an address are the unstaked class and
the first class `cfg.Classes[0]` of the sorted list (the custom class when every
staked threshold is below 100): the pair that line 561 leaves out is the only
overlap. -/
theorem tier_sets_overlap_on_first_class_only (P : Parsers) (flags : Flags) (cfgFile : Config)
    (hnodup : ((loadClasses cfgFile).Classes.map TrafficClass.Name).Nodup)
    (hn : ∀ c ∈ (loadClasses cfgFile).Classes, c.Name ≠ gossipSet)
    (st : State) (h : Reachable P flags cfgFile st) :
    ∀ a, ∀ c1 ∈ (loadClasses cfgFile).Classes, ∀ c2 ∈ (loadClasses cfgFile).Classes,
      isMember st.sets c1.Name a = true → isMember st.sets c2.Name a = true →
        c1 = c2 ∨
          (c1 = (loadClasses cfgFile).UnstakedClass ∧
            (loadClasses cfgFile).Classes.head? = some c2) ∨
          (c2 = (loadClasses cfgFile).UnstakedClass ∧
            (loadClasses cfgFile).Classes.head? = some c1) := by
  have key : OverlapOnFirstOnly (loadClasses cfgFile) st.sets :=
    Reachable.sets_induction (OverlapOnFirstOnly (loadClasses cfgFile))
      (fun k => startup_overlapOnFirstOnly flags _ k hn)
      (fun t node s hs => classifyNode_overlapOnFirstOnly P _ t node s hn hs) h
  have inj := fun (x y : TrafficClass) (hx : x ∈ (loadClasses cfgFile).Classes)
    (hy : y ∈ (loadClasses cfgFile).Classes) (e : x.Name = y.Name) =>
    List.inj_on_of_nodup_map hnodup hx hy e
  intro a c1 hc1 c2 hc2 h1 h2
  rcases key a c1 hc1 c2 hc2 h1 h2 with e | ⟨e, hh⟩ | ⟨e, hh⟩
  · exact Or.inl (inj c1 c2 hc1 hc2 e)
  · exact Or.inr (Or.inl ⟨inj _ _ hc1 (unstaked_mem_loadClasses cfgFile) e, hh⟩)
  · exact Or.inr (Or.inr ⟨inj _ _ hc2 (unstaked_mem_loadClasses cfgFile) e, hh⟩)

/-- The classes behind the first one: with unique class names, none of them the
name `solana-gossip` of the gossip set, in every state reachable from startup by
passes of the loop every address is a member of the set of at most one class of
`cfg.Classes[1:]`. -/
theorem tier_sets_disjoint (P : Parsers) (flags : Flags) (cfgFile : Config)
    (hnodup : ((loadClasses cfgFile).Classes.map TrafficClass.Name).Nodup)
    (hn : ∀ c ∈ (loadClasses cfgFile).Classes, c.Name ≠ gossipSet)
    (st : State) (h : Reachable P flags cfgFile st) :
    ∀ a, ∀ c1 ∈ (loadClasses cfgFile).Classes.tail, ∀ c2 ∈ (loadClasses cfgFile).Classes.tail,
      isMember st.sets c1.Name a = true → isMember st.sets c2.Name a = true → c1 = c2 := by
  have key : TailDisjoint (loadClasses cfgFile) st.sets :=
    Reachable.sets_induction (TailDisjoint (loadClasses cfgFile))
      (fun k => startup_tailDisjoint flags _ k hn)
      (fun t node s hs => classifyNode_tailDisjoint P _ t node s hn hs) h
  intro a c1 hc1 c2 hc2 h1 h2
  exact List.inj_on_of_nodup_map hnodup (List.mem_of_mem_tail hc1) (List.mem_of_mem_tail hc2)
    (key a c1 hc1 c2 hc2 h1 h2)

/-- A use of `tier_sets_disjoint`: after a pass over the scenario configuration
the address `2.2.2.2` is in the unstaked set `bronze`, hence not in `gold`. -/
theorem tier_sets_disjoint_witness :
    isMember (sampleRun sampleFlags sampleConfig [unstakedPass]).sets "bronze" "2.2.2.2" = true ∧
      ¬ isMember (sampleRun sampleFlags sampleConfig [unstakedPass]).sets "gold" "2.2.2.2"
        = true :=
  have hm : isMember (sampleRun sampleFlags sampleConfig [unstakedPass]).sets
      "bronze" "2.2.2.2" = true := by decide!
  ⟨hm, fun hg =>
    absurd (tier_sets_disjoint sampleParsers sampleFlags sampleConfig (by decide!) (by decide!) _
      (sampleRun_reachable _ _ _) "2.2.2.2" ⟨"bronze", .fin (-1), 30⟩ (by decide!)
      ⟨"gold", .fin (1 / 100), 10⟩ (by decide!) hm hg) (by decide!)⟩

/-! ### C6: the local identity -/

theorem addVoteAccount_local (flags : Flags) (t : StakeTable) (node : VoteAccount)
    (h : t.stakedPeers flags.Pubkey = none) :
    (addVoteAccount flags t node).stakedPeers flags.Pubkey = none := by
  unfold addVoteAccount
  by_cases h1 : (flags.Pubkey ≠ "" ∨ True) ∧ node.NodePubkey = flags.Pubkey
  · simp only [h1, and_self, if_true]; exact h
  · simp only [h1, if_false]
    by_cases h2 : node.ActivatedStake ≤ 0
    · simp only [h2, if_true]; exact h
    · simp only [h2, if_false]
      have hne : flags.Pubkey ≠ node.NodePubkey := fun e => h1 ⟨Or.inr trivial, e.symm⟩
      rw [Function.update_noteq hne]; exact h

/-- The local identity is never a key of `stakedPeers`. -/
theorem buildStakeTable_local (flags : Flags) (v : VoteAccounts) :
    (buildStakeTable flags v).stakedPeers flags.Pubkey = none := by
  unfold buildStakeTable
  have fold : ∀ (l : List VoteAccount) (t : StakeTable), t.stakedPeers flags.Pubkey = none →
      (l.foldl (addVoteAccount flags) t).stakedPeers flags.Pubkey = none := by
    intro l
    induction l with
    | nil => intro t ht; exact ht
    | cons x xs ih => intro t ht; exact ih _ (addVoteAccount_local flags t x ht)
  exact fold _ _ (fold _ _ rfl)

theorem stakedStep_isSome (percent : Float64) (cls : TrafficClass) (acc : IpSets × Bool)
    (addr n : String) : ((stakedStep percent cls acc addr).1 n).isSome = (acc.1 n).isSome := by
  unfold stakedStep
  by_cases hc : percent > cls.Stake ∧ acc.2 = false
  · simp only [hc, and_self, if_true]; rw [isSome_Add, isSome_Add]
  · simp only [hc, if_false]; rw [isSome_Del, isSome_Add]

theorem stakedBranch_isSome (cfg : Config) (percent : Float64) (addresses : List String)
    (s : IpSets) (n : String) :
    (stakedBranch cfg percent addresses s n).isSome = (s n).isSome := by
  unfold stakedBranch
  have inner : ∀ (cls : TrafficClass) (l : List String) (acc : IpSets × Bool),
      ((l.foldl (stakedStep percent cls) acc).1 n).isSome = (acc.1 n).isSome := by
    intro cls l
    induction l with
    | nil => intro acc; rfl
    | cons x xs ih => intro acc; rw [List.foldl_cons, ih, stakedStep_isSome]
  have outer : ∀ (cs : List TrafficClass) (acc : IpSets × Bool),
      ((cs.foldl (fun acc cls => addresses.tail.foldl (stakedStep percent cls) acc) acc).1
        n).isSome = (acc.1 n).isSome := by
    intro cs
    induction cs with
    | nil => intro acc; rfl
    | cons c cs ih => intro acc; rw [List.foldl_cons, ih, inner]
  exact outer _ _

theorem unstakedBranch_isSome (cfg : Config) (addresses : List String) (s : IpSets)
    (n : String) : (unstakedBranch cfg addresses s n).isSome = (s n).isSome := by
  unfold unstakedBranch
  induction addresses generalizing s with
  | nil => rfl
  | cons a as ih => rw [List.foldl_cons, ih, isSome_unstakedStep]

theorem classifyNode_isSome (P : Parsers) (cfg : Config) (t : StakeTable)
    (node : ClusterNode) (s : IpSets) (n : String) :
    (classifyNode P cfg t node s n).isSome = (s n).isSome := by
  rcases classifyNode_cases P cfg t node s with e | ⟨_, _, _, _, _, ⟨_, _, e⟩ | ⟨_, e⟩⟩
  · rw [e]
  · rw [e, stakedBranch_isSome]
  · rw [e, unstakedBranch_isSome]

/-- In every reachable state the set of every class exists. -/
theorem Reachable.class_set_exists {P : Parsers} {flags : Flags} {cfgFile : Config}
    {st : State} (h : Reachable P flags cfgFile st) (c : TrafficClass)
    (hc : c ∈ (loadClasses cfgFile).Classes) : (st.sets c.Name).isSome = true := by
  refine Reachable.sets_induction (fun s => (s c.Name).isSome = true) ?_ ?_ h
  · intro k
    show (seedCustomNodes _ (createSets _ k.sets) c.Name).isSome = true
    rw [seedCustomNodes_isSome]
    exact createSets_isSome _ _ _ (Or.inr ⟨c, hc, rfl⟩)
  · intro t node s hs
    rw [classifyNode_isSome]; exact hs

/-- A node whose collected addresses do not include `b` leaves the membership of
`b` in every set as it is. -/
theorem classifyNode_other (P : Parsers) (cfg : Config) (t : StakeTable)
    (node : ClusterNode) (s : IpSets) (n b : String) (hb : b ∉ collected P node) :
    isMember (classifyNode P cfg t node s) n b = isMember s n b := by
  rcases classifyNode_cases P cfg t node s with e | ⟨g, gh, gp, hg, hp, ⟨_, _, e⟩ | ⟨_, e⟩⟩
  · rw [e]
  · rw [e]
    have hb1 : b ∉ addressesOf P node gh := by
      simpa [collected, hg, hp] using hb
    rcases addressesOf_tail P node gh with h0 | ⟨x, hx⟩
    · rw [stakedBranch_nil_tail _ _ _ _ h0]
    · rw [stakedBranch_single _ _ _ _ x hx]
      apply stakedLoop_other
      intro e1
      apply hb1
      have : x ∈ (addressesOf P node gh).tail := by rw [hx]; simp
      rw [e1]; exact List.mem_of_mem_tail this
  · rw [e]
    have hb1 : b ∉ addressesOf P node gh := by
      simpa [collected, hg, hp] using hb
    clear e
    unfold unstakedBranch
    generalize addressesOf P node gh = l at hb1
    induction l generalizing s with
    | nil => rfl
    | cons x xs ih =>
      rw [List.foldl_cons, ih _ (fun h => hb1 (List.mem_cons_of_mem _ h))]
      exact isMember_unstakedStep_other _ _ _ _ _ (fun e1 => hb1 (e1 ▸ List.mem_cons_self _ _))

theorem unstakedBranch_unstakedOnly (cfg : Config) (a : String) (addresses : List String)
    (s : IpSets) (hs : (s cfg.UnstakedClass.Name).isSome = true)
    (h : UnstakedOnly cfg a s ∨ a ∈ addresses) :
    UnstakedOnly cfg a (unstakedBranch cfg addresses s) := by
  unfold unstakedBranch
  induction addresses generalizing s with
  | nil =>
    rcases h with h | h
    · exact h
    · cases h
  | cons x xs ih =>
    rw [List.foldl_cons]
    apply ih _ (by rw [isSome_unstakedStep]; exact hs)
    by_cases hx : a = x
    · subst hx
      left
      exact ⟨isMember_unstakedStep_unstaked cfg s a hs,
        fun c hc hu => isMember_unstakedStep_tail cfg s a c hc hu⟩
    · rcases h with h | h
      · left
        refine ⟨?_, fun c hc hu => ?_⟩
        · rw [isMember_unstakedStep_other _ _ _ _ _ hx]; exact h.1
        · rw [isMember_unstakedStep_other _ _ _ _ _ hx]; exact h.2 c hc hu
      · rcases List.mem_cons.mp h with h | h
        · exact absurd h hx
        · exact Or.inr h

/-- A node with a collected address is handled by one of the two branches, on
its collected addresses. -/
theorem classifyNode_of_mem_collected (P : Parsers) (cfg : Config) (t : StakeTable)
    (node : ClusterNode) (s : IpSets) (a : String) (ha : a ∈ collected P node) :
    (∃ stake, t.stakedPeers node.Pubkey = some stake ∧
        classifyNode P cfg t node s
          = stakedBranch cfg (percentOf stake t.totalStake) (collected P node) s) ∨
      (t.stakedPeers node.Pubkey = none ∧
        classifyNode P cfg t node s = unstakedBranch cfg (collected P node) s) := by
  unfold classifyNode
  unfold collected at ha ⊢
  cases hg : node.Gossip with
  | none => rw [hg] at ha; cases ha
  | some gossip =>
    rw [hg] at ha
    cases hp : P.SplitHostPort gossip with
    | none => simp only [hp] at ha; cases ha
    | some hostport =>
      obtain ⟨gossip_host, port⟩ := hostport
      cases hst : t.stakedPeers node.Pubkey with
      | none => right; simp only [hp, hst, and_self]
      | some stake => left; exact ⟨stake, rfl, by simp only [hp, hst]⟩

/-- A node that is not in `stakedPeers` leaves each of its collected addresses in
the unstaked set only; a node that did not collect `a` leaves `a` where it is. -/
theorem classifyNode_unstakedOnly (P : Parsers) (cfg : Config) (t : StakeTable)
    (node : ClusterNode) (s : IpSets) (a : String)
    (hs : (s cfg.UnstakedClass.Name).isSome = true)
    (hlocal : a ∈ collected P node → t.stakedPeers node.Pubkey = none)
    (h : UnstakedOnly cfg a s ∨ a ∈ collected P node) :
    UnstakedOnly cfg a (classifyNode P cfg t node s) := by
  by_cases ha : a ∈ collected P node
  · rcases classifyNode_of_mem_collected P cfg t node s a ha with ⟨_, hst, _⟩ | ⟨_, e⟩
    · rw [hlocal ha] at hst; cases hst
    · rw [e]
      exact unstakedBranch_unstakedOnly _ _ _ _ hs (Or.inr ha)
  · rcases h with h | h
    · refine ⟨?_, fun c hc hu => ?_⟩
      · rw [classifyNode_other _ _ _ _ _ _ _ ha]; exact h.1
      · rw [classifyNode_other _ _ _ _ _ _ _ ha]; exact h.2 c hc hu
    · exact absurd h ha

/-- With stake updates the port step never leaves the loop, and it dies only on a
local entry with a TPU address and no QUIC address. -/
theorem portStep_next_of_update (P : Parsers) (flags : Flags) (node : ClusterNode)
    (st : State) (hupd : flags.UpdateIpSets = true)
    (hquic : node.Pubkey = flags.Pubkey → node.TPU ≠ none → node.TPUQUIC ≠ none) :
    ∃ st1, portStep P flags node st = .next st1 ∧ st1.sets = st.sets := by
  unfold portStep
  by_cases hpk : flags.Pubkey ≠ "" ∧ flags.Pubkey = node.Pubkey
  · rw [if_pos hpk]
    cases htpu : node.TPU with
    | none => exact ⟨st, rfl, rfl⟩
    | some tpuAddr =>
      cases hq : node.TPUQUIC with
      | none => exact absurd hq (hquic hpk.2.symm (by rw [htpu]; simp))
      | some quicTPUAddr =>
        simp only [hupd, Bool.not_true, Bool.false_eq_true, if_false]
        repeat' split
        all_goals exact ⟨_, rfl, rfl⟩
  · rw [if_neg hpk]
    exact ⟨st, rfl, rfl⟩

theorem nodeLoop_unstakedOnly (P : Parsers) (flags : Flags) (cfg : Config) (t : StakeTable)
    (a : String) (hupd : flags.UpdateIpSets = true)
    (ht : t.stakedPeers flags.Pubkey = none)
    (nodes : List ClusterNode) (st : State)
    (hquic : ∀ m ∈ nodes, m.Pubkey = flags.Pubkey → m.TPU ≠ none → m.TPUQUIC ≠ none)
    (honly : ∀ m ∈ nodes, a ∈ collected P m → m.Pubkey = flags.Pubkey)
    (hs : (st.sets cfg.UnstakedClass.Name).isSome = true) :
    ∃ st1, nodeLoop P flags cfg t nodes st = some st1 ∧
      ((UnstakedOnly cfg a st.sets ∨ ∃ m ∈ nodes, a ∈ collected P m) →
        UnstakedOnly cfg a st1.sets) := by
  induction nodes generalizing st with
  | nil =>
    refine ⟨st, rfl, ?_⟩
    rintro (h | ⟨m, hm, _⟩)
    · exact h
    · cases hm
  | cons node rest ih =>
    obtain ⟨st2, hp, hsets⟩ := portStep_next_of_update P flags node st hupd
      (hquic node (List.mem_cons_self _ _))
    have hs2 : ((classifyNode P cfg t node st2.sets) cfg.UnstakedClass.Name).isSome = true := by
      rw [classifyNode_isSome, hsets]; exact hs
    obtain ⟨st1, hloop, hq⟩ := ih { st2 with sets := classifyNode P cfg t node st2.sets }
      (fun m hm => hquic m (List.mem_cons_of_mem _ hm))
      (fun m hm => honly m (List.mem_cons_of_mem _ hm)) hs2
    refine ⟨st1, ?_, ?_⟩
    · unfold nodeLoop
      rw [hp]
      exact hloop
    · intro h
      apply hq
      by_cases ha : a ∈ collected P node
      · left
        show UnstakedOnly cfg a (classifyNode P cfg t node st2.sets)
        apply classifyNode_unstakedOnly _ _ _ _ _ _ (by rw [hsets]; exact hs)
        · intro _
          rw [honly node (List.mem_cons_self _ _) ha]; exact ht
        · exact Or.inr ha
      · rcases h with h | ⟨m, hm, hma⟩
        · left
          show UnstakedOnly cfg a (classifyNode P cfg t node st2.sets)
          apply classifyNode_unstakedOnly _ _ _ _ _ _ (by rw [hsets]; exact hs)
          · intro h'; exact absurd h' ha
          · left; rw [hsets]; exact h
        · rcases List.mem_cons.mp hm with rfl | hm
          · exact absurd hma ha
          · exact Or.inr ⟨m, hm, hma⟩

/-- One address of the unstaked branch is added to the gossip set and to the
unstaked set, and to no other set. -/
theorem unstakedStep_adds_unstaked_only (cfg : Config) (s : IpSets) (addr n b : String)
    (hg : n ≠ gossipSet) (hu : n ≠ cfg.UnstakedClass.Name)
    (h : isMember (unstakedStep cfg s addr) n b = true) : isMember s n b = true := by
  unfold unstakedStep at h
  rw [isMember_unstakedDels, isMember_Add, isMember_Add] at h
  simp only [hg, hu, decide_False, Bool.false_and, Bool.or_false, Bool.and_eq_true] at h
  exact h.1

theorem unstakedBranch_adds_unstaked_only (cfg : Config) (addresses : List String)
    (s : IpSets) (n b : String) (hg : n ≠ gossipSet) (hu : n ≠ cfg.UnstakedClass.Name)
    (h : isMember (unstakedBranch cfg addresses s) n b = true) : isMember s n b = true := by
  unfold unstakedBranch at h
  induction addresses generalizing s with
  | nil => exact h
  | cons x xs ih =>
    rw [List.foldl_cons] at h
    exact unstakedStep_adds_unstaked_only cfg s x n b hg hu (ih _ h)

/-- The classification of a node that is not in `stakedPeers` whenever it
collected `a` adds `a` to no set other than the gossip set and the unstaked
set. -/
theorem classifyNode_adds_unstaked_only (P : Parsers) (cfg : Config) (t : StakeTable)
    (node : ClusterNode) (s : IpSets) (a n : String)
    (hlocal : a ∈ collected P node → t.stakedPeers node.Pubkey = none)
    (hg : n ≠ gossipSet) (hu : n ≠ cfg.UnstakedClass.Name)
    (h : isMember (classifyNode P cfg t node s) n a = true) : isMember s n a = true := by
  by_cases ha : a ∈ collected P node
  · rcases classifyNode_of_mem_collected P cfg t node s a ha with ⟨_, hst, _⟩ | ⟨_, e⟩
    · rw [hlocal ha] at hst; cases hst
    · rw [e] at h
      exact unstakedBranch_adds_unstaked_only _ _ _ _ _ hg hu h
  · rw [classifyNode_other _ _ _ _ _ _ _ ha] at h
    exact h

theorem nodeLoop_adds_unstaked_only (P : Parsers) (flags : Flags) (cfg : Config)
    (t : StakeTable) (a n : String) (ht : t.stakedPeers flags.Pubkey = none)
    (hg : n ≠ gossipSet) (hu : n ≠ cfg.UnstakedClass.Name)
    (nodes : List ClusterNode) (st st1 : State)
    (honly : ∀ m ∈ nodes, a ∈ collected P m → m.Pubkey = flags.Pubkey)
    (h : nodeLoop P flags cfg t nodes st = some st1)
    (hm : isMember st1.sets n a = true) : isMember st.sets n a = true := by
  induction nodes generalizing st with
  | nil =>
    unfold nodeLoop at h
    cases h; exact hm
  | cons node rest ih =>
    unfold nodeLoop at h
    cases hp : portStep P flags node st with
    | crash => rw [hp] at h; cases h
    | stop st2 =>
      rw [hp] at h
      cases h
      rw [← portStep_stop_sets P flags node st _ hp]; exact hm
    | next st2 =>
      rw [hp] at h
      have h2 := ih _ (fun m hmem => honly m (List.mem_cons_of_mem _ hmem)) h
      rw [← portStep_next_sets P flags node st _ hp]
      exact classifyNode_adds_unstaked_only P cfg t node st2.sets a n
        (fun ha => by rw [honly node (List.mem_cons_self _ _) ha]; exact ht) hg hu h2

/-- The port step dies only on a local entry with a TPU address and no QUIC
address. -/
theorem portStep_ne_crash (P : Parsers) (flags : Flags) (node : ClusterNode) (st : State)
    (hquic : node.Pubkey = flags.Pubkey → node.TPU ≠ none → node.TPUQUIC ≠ none) :
    portStep P flags node st ≠ .crash := by
  unfold portStep
  by_cases hpk : flags.Pubkey ≠ "" ∧ flags.Pubkey = node.Pubkey
  · rw [if_pos hpk]
    cases htpu : node.TPU with
    | none => simp
    | some tpuAddr =>
      cases hq : node.TPUQUIC with
      | none => exact absurd hq (hquic hpk.2.symm (by rw [htpu]; simp))
      | some quicTPUAddr =>
        dsimp only
        repeat' split
        all_goals simp
  · rw [if_neg hpk]
    simp

theorem nodeLoop_returns (P : Parsers) (flags : Flags) (cfg : Config) (t : StakeTable)
    (nodes : List ClusterNode) (st : State)
    (hquic : ∀ m ∈ nodes, m.Pubkey = flags.Pubkey → m.TPU ≠ none → m.TPUQUIC ≠ none) :
    ∃ st1, nodeLoop P flags cfg t nodes st = some st1 := by
  induction nodes generalizing st with
  | nil => exact ⟨st, rfl⟩
  | cons node rest ih =>
    unfold nodeLoop
    cases hp : portStep P flags node st with
    | crash =>
      exact absurd hp
        (portStep_ne_crash P flags node st (hquic node (List.mem_cons_self _ _)))
    | stop st2 => exact ⟨st2, rfl⟩
    | next st2 => exact ih _ (fun m hmem => hquic m (List.mem_cons_of_mem _ hmem))

/-- The stake table of a pass never has the local identity as a key: with
`-update` it is built by `buildStakeTable`, without it the map is `nil`. -/
theorem tick_table_local (flags : Flags) (inp : TickInput) (t : StakeTable)
    (h : (if flags.UpdateIpSets = true then inp.voteAccounts.map (buildStakeTable flags)
      else some { stakedPeers := fun _ => none, totalStake := 0 }) = some t) :
    t.stakedPeers flags.Pubkey = none := by
  split at h
  · cases hv : inp.voteAccounts with
    | none => rw [hv] at h; cases h
    | some v =>
      rw [hv] at h
      cases h
      exact buildStakeTable_local flags v
  · cases h; rfl

/-- C6 as stated fails: the local identity `validator` is configured and has
stake, its gossip entry is in the roster, and at the end of the pass its address
`9.9.9.9`, which no other entry has, is in the unstaked set `bronze`. -/
theorem local_identity_lands_in_unstaked_set :
    isMember (sampleRun localFlags sampleConfig [localNodePass]).sets "bronze" "9.9.9.9"
      = true := by
  decide!

/-- C6, amended. The classifier adds the addresses of the local node to no tier
set other than the unstaked one: in every pass, whatever the flags and the
answers of the RPC calls, an address that no gossip entry of another node
carries is at the end of the pass a member of a set other than the gossip set
and the unstaked set only if it was a member of that set before the pass. The
pass ends when every local entry with a TPU address has a QUIC address. -/
theorem local_identity_added_to_unstaked_only (P : Parsers) (flags : Flags) (cfgFile : Config)
    (inp : TickInput) (st : State) (a : String)
    (honly : ∀ m ∈ inp.clusterNodes.getD [], a ∈ collected P m → m.Pubkey = flags.Pubkey) :
    (∀ st1, tick P flags (loadClasses cfgFile) inp st = some st1 →
      ∀ n, n ≠ gossipSet → n ≠ (loadClasses cfgFile).UnstakedClass.Name →
        isMember st1.sets n a = true → isMember st.sets n a = true) ∧
    ((∀ m ∈ inp.clusterNodes.getD [],
        m.Pubkey = flags.Pubkey → m.TPU ≠ none → m.TPUQUIC ≠ none) →
      ∃ st1, tick P flags (loadClasses cfgFile) inp st = some st1) := by
  constructor
  · intro st1 h n hg hu hm
    unfold tick at h
    have htab := tick_table_local flags inp
    generalize (if flags.UpdateIpSets = true then inp.voteAccounts.map (buildStakeTable flags)
      else some { stakedPeers := fun _ => none, totalStake := 0 }) = table at h htab
    cases table with
    | none => cases h; exact hm
    | some t =>
      cases hn : inp.clusterNodes with
      | none => rw [hn] at h; cases h; exact hm
      | some nodes =>
        rw [hn] at h honly
        exact nodeLoop_adds_unstaked_only P flags _ t a n (htab t rfl) hg hu nodes st st1
          honly h hm
  · intro hquic
    unfold tick
    generalize (if flags.UpdateIpSets = true then inp.voteAccounts.map (buildStakeTable flags)
      else some { stakedPeers := fun _ => none, totalStake := 0 }) = table
    cases table with
    | none => exact ⟨st, rfl⟩
    | some t =>
      cases hn : inp.clusterNodes with
      | none => exact ⟨st, rfl⟩
      | some nodes =>
        rw [hn] at hquic
        exact nodeLoop_returns P flags _ t nodes st hquic

/-- A use of `local_identity_added_to_unstaked_only`: in the pass `localNodePass`
only the entry of the local identity `validator` has the address `9.9.9.9`; the
pass from the startup state ends, and at its end the address is in none of the
sets `solana-custom`, `gold` and `silver`. -/
theorem local_identity_added_to_unstaked_only_witness :
    (∀ m ∈ localNodePass.clusterNodes.getD [],
      "9.9.9.9" ∈ collected sampleParsers m → m.Pubkey = localFlags.Pubkey) ∧
    ∃ st1, tick sampleParsers localFlags (loadClasses sampleConfig) localNodePass
        (startup localFlags (loadClasses sampleConfig) freshKernel) = some st1 ∧
      ¬ isMember st1.sets "solana-custom" "9.9.9.9" = true ∧
      ¬ isMember st1.sets "gold" "9.9.9.9" = true ∧
      ¬ isMember st1.sets "silver" "9.9.9.9" = true :=
  have key := local_identity_added_to_unstaked_only sampleParsers localFlags sampleConfig
    localNodePass (startup localFlags (loadClasses sampleConfig) freshKernel) "9.9.9.9"
    (by decide!)
  have ⟨st1, h1⟩ := key.2 (by decide!)
  ⟨by decide!, st1, h1,
    (fun hm => absurd (key.1 st1 h1 "solana-custom" (by decide) (by decide!) hm) (by decide!)),
    (fun hm => absurd (key.1 st1 h1 "gold" (by decide) (by decide!) hm) (by decide!)),
    (fun hm => absurd (key.1 st1 h1 "silver" (by decide) (by decide!) hm) (by decide!))⟩

/-- Where the address of the local identity ends up. The local identity is kept
out of `stakedPeers`, so its gossip entry is handled as an unstaked node. In a
pass with stake updates whose RPC calls succeed and in which the local entries
with a TPU address have a QUIC address, an address collected from a gossip entry
of the local identity and from no entry of another node is, at the end of the
pass, a member of the unstaked set and of the set of no other class of
`cfg.Classes[1:]`. -/
theorem local_identity_classified_unstaked (P : Parsers) (flags : Flags) (cfgFile : Config)
    (st : State) (hreach : Reachable P flags cfgFile st) (inp : TickInput)
    (v : VoteAccounts) (nodes : List ClusterNode)
    (hupd : flags.UpdateIpSets = true) (hv : inp.voteAccounts = some v)
    (hnodes : inp.clusterNodes = some nodes)
    (hquic : ∀ m ∈ nodes, m.Pubkey = flags.Pubkey → m.TPU ≠ none → m.TPUQUIC ≠ none)
    (node : ClusterNode) (hmem : node ∈ nodes) (a : String) (ha : a ∈ collected P node)
    (honly : ∀ m ∈ nodes, a ∈ collected P m → m.Pubkey = flags.Pubkey) :
    ∃ st1, tick P flags (loadClasses cfgFile) inp st = some st1 ∧
      isMember st1.sets (loadClasses cfgFile).UnstakedClass.Name a = true ∧
      ∀ c ∈ (loadClasses cfgFile).Classes.tail,
        c.Name ≠ (loadClasses cfgFile).UnstakedClass.Name →
        isMember st1.sets c.Name a = false := by
  obtain ⟨st1, hloop, hq⟩ := nodeLoop_unstakedOnly P flags (loadClasses cfgFile)
    (buildStakeTable flags v) a hupd (buildStakeTable_local flags v) nodes st hquic honly
    (hreach.class_set_exists _ (unstaked_mem_loadClasses cfgFile))
  refine ⟨st1, ?_, hq (Or.inr ⟨node, hmem, ha⟩)⟩
  unfold tick
  simp only [hupd, if_true, hv, Option.map_some', hnodes]
  exact hloop

/-- A use of `local_identity_classified_unstaked`: the pass `localNodePass` from
the startup state ends with `9.9.9.9` in the unstaked set only. -/
theorem local_identity_classified_unstaked_witness :
    ∃ st1, tick sampleParsers localFlags (loadClasses sampleConfig) localNodePass
        (startup localFlags (loadClasses sampleConfig) freshKernel) = some st1 ∧
      isMember st1.sets (loadClasses sampleConfig).UnstakedClass.Name "9.9.9.9" = true ∧
      ∀ c ∈ (loadClasses sampleConfig).Classes.tail,
        c.Name ≠ (loadClasses sampleConfig).UnstakedClass.Name →
        isMember st1.sets c.Name "9.9.9.9" = false :=
  local_identity_classified_unstaked sampleParsers localFlags sampleConfig _
    (Reachable.start freshKernel) localNodePass ⟨[⟨"validator", 50⟩, ⟨"A", 50⟩], []⟩
    [⟨"validator", some "9.9.9.9:8001", some "9.9.9.9:8003", some "9.9.9.9:8009"⟩]
    rfl rfl rfl (by decide!)
    ⟨"validator", some "9.9.9.9:8001", some "9.9.9.9:8003", some "9.9.9.9:8009"⟩
    (by decide!) "9.9.9.9" (by decide!) (by decide!)

/-! ### C2 and C3: the gossip host of a staked node -/

theorem addressesOf_tail_ne (P : Parsers) (node : ClusterNode) (gossip_host t : String)
    (h : (addressesOf P node gossip_host).tail = [t]) : t ≠ gossip_host := by
  unfold addressesOf at h
  simp only [List.singleton_append, List.tail_cons] at h
  split at h
  · split at h
    · split at h
      · split at h
        · rename_i hne
          cases h
          exact hne
        · cases h
      · cases h
    · cases h
  · cases h

/-- For every node found in `stakedPeers`, whatever the configuration and the
stake, the classification leaves the membership of its gossip host in every set
as it was: the staked branch never adds the gossip host to a class set or to the
gossip set. -/
theorem staked_node_gossip_host_untouched (P : Parsers) (cfg : Config) (t : StakeTable)
    (node : ClusterNode) (s : IpSets) (gossip gossip_host port : String) (stake : Nat)
    (hg : node.Gossip = some gossip) (hp : P.SplitHostPort gossip = some (gossip_host, port))
    (hst : t.stakedPeers node.Pubkey = some stake) (n : String) :
    isMember (classifyNode P cfg t node s) n gossip_host = isMember s n gossip_host := by
  have e : classifyNode P cfg t node s
      = stakedBranch cfg (percentOf stake t.totalStake) (addressesOf P node gossip_host) s := by
    unfold classifyNode
    simp only [hg, hp, hst]
  rw [e]
  rcases addressesOf_tail P node gossip_host with h0 | ⟨x, hx⟩
  · rw [stakedBranch_nil_tail _ _ _ _ h0]
  · rw [stakedBranch_single _ _ _ _ x hx]
    exact stakedLoop_other _ _ _ _ _ _ (fun e1 => addressesOf_tail_ne P node gossip_host x hx e1.symm)

/-- C2, the code at a failing input. Node `A` is in `stakedPeers` with 3% of the
stake, its gossip host `1.1.1.1` and its TPU host `1.1.1.2` are collected, and the
first class with `percent > threshold` is `gold`. After the pass the TPU host is
in the set `gold`, but the gossip host is not: the staked branch iterates
`addresses[1:]`. -/
theorem staked_gossip_host_not_in_selected_set :
    collected sampleParsers stakedNode = ["1.1.1.1", "1.1.1.2"] ∧
    (buildStakeTable sampleFlags ⟨[⟨"A", 3⟩, ⟨"Z", 97⟩], []⟩).stakedPeers "A" = some 3 ∧
    selectClass (loadClasses sampleConfig).Classes (percentOf 3 100) = some ⟨"gold", .fin (1 / 100), 10⟩ ∧
    isMember (sampleRun sampleFlags sampleConfig [stakedPass]).sets "gold" "1.1.1.2" = true ∧
    isMember (sampleRun sampleFlags sampleConfig [stakedPass]).sets "gold" "1.1.1.1" = false := by
  refine ⟨?_, ?_, ?_, ?_, ?_⟩
  · decide!
  · decide!
  · decide!
  · decide!
  · decide!

/-- C3, the code at a failing input. After the pass `stakedPass` the collected
gossip host `1.1.1.1` of the staked node `A` is not in the gossip set
`solana-gossip`, which exists; its TPU host `1.1.1.2` is. -/
theorem staked_gossip_host_not_in_gossip_set :
    "1.1.1.1" ∈ collected sampleParsers stakedNode ∧
    ((sampleRun sampleFlags sampleConfig [stakedPass]).sets gossipSet).isSome = true ∧
    isMember (sampleRun sampleFlags sampleConfig [stakedPass]).sets gossipSet "1.1.1.2" = true ∧
    isMember (sampleRun sampleFlags sampleConfig [stakedPass]).sets gossipSet "1.1.1.1"
      = false := by
  refine ⟨?_, ?_, ?_, ?_⟩
  · decide!
  · decide!
  · decide!
  · decide!

/-! ### C7: the custom set in a pass -/

/-- C7, the code at a failing input. The custom node `5.5.5.5` is in the custom
set `solana-custom` after startup; after a pass in which a staked node has its TPU
at that address, the staked branch has deleted it from the custom set. -/
theorem staked_branch_deletes_from_custom_set :
    isMember (sampleRun sampleFlags sampleConfig []).sets "solana-custom" "5.5.5.5" = true ∧
    isMember (sampleRun sampleFlags sampleConfig [stakedCustomPass]).sets
      "solana-custom" "5.5.5.5" = false := by
  constructor
  · decide!
  · decide!

/-! ### Rule lists after the iptables operations -/

theorem rules?_modify (ipt : IpTables) (t c : String) (f : List RuleSpec → List RuleSpec)
    (t1 c1 : String) :
    iptables.rules? (iptables.modify ipt t c f) t1 c1
      = if t1 = t ∧ c1 = c then (iptables.rules? ipt t c).map f
        else iptables.rules? ipt t1 c1 := by
  unfold iptables.rules? iptables.modify
  induction ipt with
  | nil => simp
  | cons ch rest ih =>
    simp only [List.map_cons, List.find?_cons]
    by_cases hk : t1 = t ∧ c1 = c
    · obtain ⟨rfl, rfl⟩ := hk
      simp only [and_self, if_true] at ih ⊢
      by_cases hch : ch.table = t1 ∧ ch.name = c1
      · simp [hch]
      · simp only [hch, if_false, decide_False]
        exact ih
    · simp only [hk, if_false] at ih ⊢
      by_cases hch : ch.table = t ∧ ch.name = c
      · have hne : ¬ (t = t1 ∧ c = c1) := fun h => hk ⟨h.1.symm, h.2.symm⟩
        have hne2 : ¬ (ch.table = t1 ∧ ch.name = c1) := by
          rw [hch.1, hch.2]; exact hne
        simp only [hch, and_self, if_true, hne, hne2, decide_False]
        exact ih
      · simp only [hch, if_false]
        by_cases h1 : ch.table = t1 ∧ ch.name = c1
        · simp [h1]
        · simp only [h1, decide_False]
          exact ih

theorem rules?_append_single (ipt : IpTables) (t c t1 c1 : String)
    (h : iptables.rules? ipt t c = none) :
    iptables.rules? (ipt ++ [⟨t, c, []⟩]) t1 c1
      = if t1 = t ∧ c1 = c then some [] else iptables.rules? ipt t1 c1 := by
  unfold iptables.rules? at h ⊢
  rw [List.find?_append]
  by_cases hk : t1 = t ∧ c1 = c
  · obtain ⟨rfl, rfl⟩ := hk
    rw [Option.map_eq_none'] at h
    rw [h]
    simp
  · have hne : ¬ (t = t1 ∧ c = c1) := fun h => hk ⟨h.1.symm, h.2.symm⟩
    simp only [hk, if_false]
    cases hf : List.find? (fun ch => decide (ch.table = t1 ∧ ch.name = c1)) ipt with
    | some ch => simp
    | none => simp [List.find?_cons, hne]

/-- The rules of every chain after `createChain`. -/
theorem rules?_createChain (ipt : IpTables) (t c policy t1 c1 : String) :
    iptables.rules? (createChain ipt t c policy) t1 c1
      = if t1 = t ∧ c1 = c then
          some (if policy ≠ "" ∧ ["-j", policy] ∉ (iptables.rules? ipt t c).getD []
            then (iptables.rules? ipt t c).getD [] ++ [["-j", policy]]
            else (iptables.rules? ipt t c).getD [])
        else iptables.rules? ipt t1 c1 := by
  have hnew : ∀ t2 c2, iptables.rules?
      (if (!iptables.ChainExists ipt t c) = true then iptables.NewChain ipt t c else ipt) t2 c2
      = if t2 = t ∧ c2 = c then some ((iptables.rules? ipt t c).getD [])
        else iptables.rules? ipt t2 c2 := by
    intro t2 c2
    unfold iptables.NewChain iptables.ChainExists
    cases hex : iptables.rules? ipt t c with
    | none =>
      simp only [Option.isSome_none, Bool.not_false, if_true, Bool.false_eq_true, if_false,
        Option.getD_none]
      exact rules?_append_single ipt t c t2 c2 hex
    | some rs =>
      simp only [Option.isSome_some, Bool.not_true, Bool.false_eq_true, if_false,
        Option.getD_some]
      by_cases hk : t2 = t ∧ c2 = c
      · obtain ⟨rfl, rfl⟩ := hk
        simp [hex]
      · simp [hk]
  unfold createChain
  simp only []
  by_cases hp : policy ≠ ""
  · simp only [hp, ne_eq, not_false_eq_true, if_true, true_and]
    unfold iptables.AppendUnique iptables.Exists iptables.Append
    rw [hnew t c]
    simp only [and_self, if_true]
    by_cases hin : ["-j", policy] ∈ (iptables.rules? ipt t c).getD []
    · simp only [hin, decide_True, if_true, not_true_eq_false, if_false]
      exact hnew t1 c1
    · simp only [hin, decide_False, Bool.false_eq_true, if_false, not_false_eq_true, if_true]
      rw [rules?_modify, hnew t c]
      by_cases hk : t1 = t ∧ c1 = c
      · simp [hk]
      · simp only [hk, if_false]
        rw [hnew t1 c1]
        simp [hk]
  · simp only [hp, if_false, false_and]
    exact hnew t1 c1

theorem rules?_AppendUnique (ipt : IpTables) (t c : String) (spec : RuleSpec)
    (t1 c1 : String) :
    iptables.rules? (iptables.AppendUnique ipt t c spec) t1 c1
      = if t1 = t ∧ c1 = c then
          (iptables.rules? ipt t c).map (fun rs => if spec ∈ rs then rs else rs ++ [spec])
        else iptables.rules? ipt t1 c1 := by
  unfold iptables.AppendUnique iptables.Exists iptables.Append
  cases hex : iptables.rules? ipt t c with
  | none =>
    simp only [Bool.false_eq_true, if_false, Option.map_none']
    rw [rules?_modify, hex]
    by_cases hk : t1 = t ∧ c1 = c
    · simp [hk]
    · simp [hk]
  | some rs =>
    by_cases hin : spec ∈ rs
    · simp only [hin, decide_True, if_true, Option.map_some']
      by_cases hk : t1 = t ∧ c1 = c
      · obtain ⟨rfl, rfl⟩ := hk
        simp [hex]
      · simp [hk]
    · simp only [hin, decide_False, Bool.false_eq_true, if_false, Option.map_some']
      rw [rules?_modify, hex]
      by_cases hk : t1 = t ∧ c1 = c
      · simp [hk]
      · simp [hk]

theorem rules?_Insert_first (ipt : IpTables) (t c : String) (spec : RuleSpec)
    (t1 c1 : String) :
    iptables.rules? (iptables.Insert ipt t c 1 spec) t1 c1
      = if t1 = t ∧ c1 = c then (iptables.rules? ipt t c).map (fun rs => spec :: rs)
        else iptables.rules? ipt t1 c1 := by
  unfold iptables.Insert
  rw [rules?_modify]
  by_cases hk : t1 = t ∧ c1 = c
  · simp only [hk, and_self, if_true]
    cases iptables.rules? ipt t c with
    | none => rfl
    | some rs => simp
  · simp [hk]

theorem rules?_Delete (ipt : IpTables) (t c : String) (spec : RuleSpec) (t1 c1 : String) :
    iptables.rules? (iptables.Delete ipt t c spec) t1 c1
      = if t1 = t ∧ c1 = c then (iptables.rules? ipt t c).map (fun rs => rs.erase spec)
        else iptables.rules? ipt t1 c1 := by
  unfold iptables.Delete
  exact rules?_modify ipt t c _ t1 c1

/-- The loop of lines 323-328 on the rule list of the mangle chain. -/
theorem rules?_markRules (cs : List TrafficClass) (ipt : IpTables) (t1 c1 : String) :
    iptables.rules?
        (cs.foldl (fun ipt set => iptables.AppendUnique ipt "mangle" mangleChain (markRule set))
          ipt) t1 c1
      = if t1 = "mangle" ∧ c1 = mangleChain then
          (iptables.rules? ipt "mangle" mangleChain).map (fun rs =>
            cs.foldl (fun rs set => if markRule set ∈ rs then rs else rs ++ [markRule set]) rs)
        else iptables.rules? ipt t1 c1 := by
  induction cs generalizing ipt with
  | nil =>
    by_cases hk : t1 = "mangle" ∧ c1 = mangleChain
    · obtain ⟨rfl, rfl⟩ := hk
      simp
    · simp [hk]
  | cons c cs ih =>
    rw [List.foldl_cons, ih, rules?_AppendUnique, rules?_AppendUnique]
    by_cases hk : t1 = "mangle" ∧ c1 = mangleChain
    · simp only [hk, and_self, if_true, Option.map_map]
      rfl
    · simp [hk]

theorem markRule_injective (c d : TrafficClass) (h : markRule c = markRule d) :
    c.Name = d.Name := by
  unfold markRule at h
  simp only [List.cons.injEq, true_and] at h
  exact h.1

theorem markRules_appended (cs : List TrafficClass) (rs : List RuleSpec)
    (hnodup : (cs.map TrafficClass.Name).Nodup) (hnew : ∀ c ∈ cs, markRule c ∉ rs) :
    cs.foldl (fun rs set => if markRule set ∈ rs then rs else rs ++ [markRule set]) rs
      = rs ++ cs.map markRule := by
  induction cs generalizing rs with
  | nil => simp
  | cons c cs ih =>
    rw [List.map_cons, List.nodup_cons] at hnodup
    rw [List.foldl_cons, if_neg (hnew c (List.mem_cons_self _ _)), ih _ hnodup.2]
    · simp
    · intro d hd hmem
      rcases List.mem_append.mp hmem with h | h
      · exact hnew d (List.mem_cons_of_mem _ hd) h
      · rw [List.mem_singleton] at h
        exact hnodup.1 (List.mem_map.mpr ⟨d, hd, markRule_injective d c h⟩)

/-- The rules of `mangle/solana-nodes` after the rules of startup are created. -/
theorem rules?_createRules_mangle (flags : Flags) (cfg : Config) (ipt : IpTables) :
    iptables.rules? (createRules flags cfg ipt) "mangle" mangleChain
      = some (cfg.Classes.foldl
          (fun rs set => if markRule set ∈ rs then rs else rs ++ [markRule set])
          (if ["-j", "ACCEPT"] ∉ (iptables.rules? ipt "mangle" mangleChain).getD []
            then (iptables.rules? ipt "mangle" mangleChain).getD [] ++ [["-j", "ACCEPT"]]
            else (iptables.rules? ipt "mangle" mangleChain).getD [])) := by
  have hmf : ¬ ("mangle" = "filter") := by decide
  have hpre : ¬ (mangleChain = "PREROUTING") := by decide
  unfold createRules
  simp only [rules?_Insert_first, hmf, false_and, if_false]
  split
  · rw [rules?_AppendUnique]
    simp only [hpre, and_false, if_false]
    rw [rules?_markRules]
    simp only [and_self, if_true, rules?_createChain, hmf, false_and, if_false]
    simp
  · rw [rules?_markRules]
    simp only [and_self, if_true, rules?_createChain, hmf, false_and, if_false]
    simp

/-- The rules of `mangle/solana-nodes` after the installation, for every
configuration with unique class names, on a kernel without that chain: the rule
`-j ACCEPT` comes first and the MARK rules follow in the order of `cfg.Classes`. -/
theorem mangle_chain_after_install (flags : Flags) (cfg : Config) (k : Kernel)
    (hnodup : (cfg.Classes.map TrafficClass.Name).Nodup)
    (hfresh : iptables.rules? k.ipt "mangle" mangleChain = none) :
    iptables.rules? (installTopology flags cfg k).ipt "mangle" mangleChain
      = some (["-j", "ACCEPT"] :: cfg.Classes.map markRule) := by
  show iptables.rules? (createRules flags cfg k.ipt) "mangle" mangleChain = _
  rw [rules?_createRules_mangle, hfresh]
  simp only [Option.getD_none, List.not_mem_nil, not_false_eq_true, if_true, List.nil_append]
  rw [markRules_appended _ _ hnodup]
  · rfl
  · intro c _ hmem
    rw [List.mem_singleton] at hmem
    unfold markRule at hmem
    simp only [List.cons.injEq] at hmem
    exact absurd hmem.1 (by decide)

/-- The rules of `filter/solana-tpu` after the rules of startup are created: the
jump to the custom chain, then the rules the chain had, then the policy when it
is given and was not there. -/
theorem rules?_createRules_filterChain (flags : Flags) (cfg : Config) (ipt : IpTables) :
    iptables.rules? (createRules flags cfg ipt) "filter" filterChain
      = some (["-j", filterChainCustom] ::
          (if flags.DefaultTPUPolicy ≠ "" ∧
              ["-j", flags.DefaultTPUPolicy] ∉ (iptables.rules? ipt "filter" filterChain).getD []
            then (iptables.rules? ipt "filter" filterChain).getD []
              ++ [["-j", flags.DefaultTPUPolicy]]
            else (iptables.rules? ipt "filter" filterChain).getD [])) := by
  have hfm : ¬ ("filter" = "mangle") := by decide
  have h1 : ¬ (filterChain = filterChain ++ "-fwd") := by decide
  have h2 : ¬ (filterChain = filterChain ++ "-vote") := by decide
  have h3 : ¬ (filterChain = filterChain ++ "-quic") := by decide
  have h4 : ¬ (filterChain = filterChain ++ "-quic-fwd") := by decide
  have h5 : ¬ (filterChain = filterChainCustom) := by decide
  have h6 : ¬ (filterChain = filterChainCustom ++ "-fwd") := by decide
  have h7 : ¬ (filterChain = filterChainCustom ++ "-vote") := by decide
  have h8 : ¬ (filterChain = filterChainCustom ++ "-quic") := by decide
  have h9 : ¬ (filterChain = filterChainCustom ++ "-quic-fwd") := by decide
  unfold createRules
  simp only [rules?_Insert_first, h1, h2, h3, h4, and_false, if_false, and_self, if_true]
  split
  · rw [rules?_AppendUnique]
    simp only [hfm, false_and, if_false]
    rw [rules?_markRules]
    simp only [hfm, false_and, if_false, rules?_createChain, h1, h2, h3, h4, h5, h6, h7, h8,
      h9, and_false, and_self, if_true, Option.map_some']
  · rw [rules?_markRules]
    simp only [hfm, false_and, if_false, rules?_createChain, h1, h2, h3, h4, h5, h6, h7, h8,
      h9, and_false, and_self, if_true, Option.map_some']

/-- Whatever the flags, the configuration and the kernel, installing a second
time puts one more jump to the custom chain in front of `filter/solana-tpu`. -/
theorem installTopology_twice_adds_jump (flags : Flags) (cfg : Config) (k : Kernel) :
    ∃ rs, iptables.rules? (installTopology flags cfg k).ipt "filter" filterChain
        = some (["-j", filterChainCustom] :: rs) ∧
      iptables.rules? (installTopology flags cfg (installTopology flags cfg k)).ipt
          "filter" filterChain
        = some (["-j", filterChainCustom] :: ["-j", filterChainCustom] :: rs) := by
  show ∃ rs, iptables.rules? (createRules flags cfg k.ipt) "filter" filterChain = _ ∧
    iptables.rules? (createRules flags cfg (createRules flags cfg k.ipt)) "filter" filterChain
      = _
  refine ⟨_, rules?_createRules_filterChain flags cfg k.ipt, ?_⟩
  rw [rules?_createRules_filterChain flags cfg (createRules flags cfg k.ipt),
    rules?_createRules_filterChain flags cfg k.ipt]
  simp only [Option.getD_some]
  by_cases hp : flags.DefaultTPUPolicy ≠ ""
  · by_cases hin : ["-j", flags.DefaultTPUPolicy]
        ∈ (iptables.rules? k.ipt "filter" filterChain).getD []
    · simp [hp, hin]
    · simp [hp, hin]
  · simp [hp]

/-! ### C8: the installation run twice -/

/-- C8, the code at a failing input. On the fresh kernel one installation leaves
`filter/solana-tpu` with one jump to its custom chain, a second installation on
the result inserts the jump again: line 344 calls `Insert` without the `Exists`
test that `insertMangleInputRules` makes. -/
theorem installTopology_twice_duplicates_custom_jump :
    iptables.rules? (installTopology sampleFlags (loadClasses sampleConfig) freshKernel).ipt
        "filter" filterChain = some [["-j", "solana-tpu-custom"]] ∧
    iptables.rules? (installTopology sampleFlags (loadClasses sampleConfig)
        (installTopology sampleFlags (loadClasses sampleConfig) freshKernel)).ipt
        "filter" filterChain = some [["-j", "solana-tpu-custom"], ["-j", "solana-tpu-custom"]] ∧
    (installTopology sampleFlags (loadClasses sampleConfig)
        (installTopology sampleFlags (loadClasses sampleConfig) freshKernel)).ipt
      ≠ (installTopology sampleFlags (loadClasses sampleConfig) freshKernel).ipt := by
  refine ⟨?_, ?_, ?_⟩
  · decide!
  · decide!
  · decide!

/-! ### C9: the per-port rules after `cleanUp` -/

/-- C9, the code at a failing input. The local identity `validator` is seen with
TPU port 8003 and QUIC port 8009, the pass fills the registry and inserts the
per-port rules, then the signal arrives. `cleanUp` runs with the `nil` it was
started with, skips lines 152-156, and the per-port rules are still there. Called
with the registry of `main`, the same `cleanUp` leaves none of them. -/
theorem cleanUp_keeps_port_rules :
    (sampleRun localFlags sampleConfig [localNodePass]).validatorPorts
      = some ⟨8003, 8009, 8002, 8009, 8015⟩ ∧
    (mainRun sampleParsers localFlags sampleConfig freshKernel [localNodePass]).map
        (fun k => (iptables.rules? k.ipt "mangle" "PREROUTING",
          iptables.rules? k.ipt "filter" "INPUT"))
      = some
        (some [mangleRule "8003" mangleChain, mangleRule "8009" mangleChain,
            mangleRule "8002" mangleChain, mangleRule "8015" mangleChain],
          some [inputRule "8015" "solana-tpu-quic-fwd", inputRule "8009" "solana-tpu-quic",
            inputRule "8002" "solana-tpu-vote", inputRule "8009" "solana-tpu-fwd",
            inputRule "8003" "solana-tpu"]) ∧
    (iptables.rules?
        (cleanUp (loadClasses sampleConfig)
          (sampleRun localFlags sampleConfig [localNodePass]).validatorPorts
          { sets := (sampleRun localFlags sampleConfig [localNodePass]).sets
            ipt := (sampleRun localFlags sampleConfig [localNodePass]).ipt }).ipt
        "mangle" "PREROUTING",
      iptables.rules?
        (cleanUp (loadClasses sampleConfig)
          (sampleRun localFlags sampleConfig [localNodePass]).validatorPorts
          { sets := (sampleRun localFlags sampleConfig [localNodePass]).sets
            ipt := (sampleRun localFlags sampleConfig [localNodePass]).ipt }).ipt
        "filter" "INPUT")
      = (some [], some []) := by
  refine ⟨?_, ?_, ?_⟩
  · decide!
  · decide!
  · decide!

/-! ### C10: the rules of the mangle chain -/

/-- C10, the code at a failing input. The class names of the scenario
configuration are unique; after the installation on the fresh kernel the chain
`mangle/solana-nodes` holds the rule `-j ACCEPT` first and the MARK rules of the
classes, in the order of the sorted class list, after it: `createChain` appends
the policy at line 308, before the loop of lines 323-328 appends the MARK rules. -/
theorem mangle_chain_accept_precedes_mark_rules :
    ((loadClasses sampleConfig).Classes.map TrafficClass.Name).Nodup ∧
    iptables.rules? (installTopology sampleFlags (loadClasses sampleConfig) freshKernel).ipt
        "mangle" mangleChain
      = some (["-j", "ACCEPT"] :: (loadClasses sampleConfig).Classes.map markRule) ∧
    (loadClasses sampleConfig).Classes.map markRule
      = [["-m", "set", "--match-set", "solana-custom", "src", "-j", "MARK", "--set-mark", "40"],
         ["-m", "set", "--match-set", "gold", "src", "-j", "MARK", "--set-mark", "10"],
         ["-m", "set", "--match-set", "silver", "src", "-j", "MARK", "--set-mark", "20"],
         ["-m", "set", "--match-set", "bronze", "src", "-j", "MARK", "--set-mark", "30"]] := by
  refine ⟨?_, ?_, ?_⟩
  · decide!
  · decide!
  · decide!


/-! ### C11: the per-port rules and the registry -/

theorem portStep_outcome (P : Parsers) (flags : Flags) (node : ClusterNode) (st : State) :
    (portStep P flags node st).holds
      (fun st1 => st1 = st ∨ ∃ port quic_port, st1 = updatePorts st port quic_port) := by
  unfold portStep
  by_cases hpk : flags.Pubkey ≠ "" ∧ flags.Pubkey = node.Pubkey
  · rw [if_pos hpk]
    cases node.TPU with
    | none => exact Or.inl rfl
    | some tpuAddr =>
      cases node.TPUQUIC with
      | none => trivial
      | some quicTPUAddr =>
        dsimp only
        cases h1 : P.SplitHostPort tpuAddr with
        | none => exact Or.inl rfl
        | some hp1 =>
          cases h2 : P.SplitHostPort quicTPUAddr with
          | none => exact Or.inl rfl
          | some hp2 =>
            obtain ⟨host1, tpu_port⟩ := hp1
            obtain ⟨host2, tpu_quic_port⟩ := hp2
            dsimp only
            cases h3 : P.Atoi tpu_port with
            | none => exact Or.inl rfl
            | some port =>
              cases h4 : P.Atoi tpu_quic_port with
              | none => exact Or.inl rfl
              | some quic_port =>
                cases flags.UpdateIpSets with
                | true => exact Or.inr ⟨port, quic_port, rfl⟩
                | false => exact Or.inr ⟨port, quic_port, rfl⟩
  · rw [if_neg hpk]
    exact Or.inl rfl

theorem isMangleDispatch_mangleRule (port : String) :
    isMangleDispatch (mangleRule port mangleChain) = true := by
  simp [isMangleDispatch, mangleRule]

theorem isInputDispatch_inputRule (port chain : String) (h : chain ∈ serviceChains) :
    isInputDispatch (inputRule port chain) = true := by
  simp [isInputDispatch, inputRule, h]

theorem isMangleDispatch_mangleRulesOf (vp : ValidatorPorts) :
    ∀ r ∈ mangleRulesOf vp, isMangleDispatch r = true := by
  intro r hr
  simp only [mangleRulesOf, List.mem_cons, List.mem_singleton, List.not_mem_nil, or_false] at hr
  rcases hr with rfl | rfl | rfl | rfl | rfl <;> exact isMangleDispatch_mangleRule _

theorem isInputDispatch_inputRulesOf (vp : ValidatorPorts) :
    ∀ r ∈ inputRulesOf vp, isInputDispatch r = true := by
  intro r hr
  simp only [inputRulesOf, List.mem_cons, List.mem_singleton, List.not_mem_nil, or_false] at hr
  rcases hr with rfl | rfl | rfl | rfl | rfl <;>
    exact isInputDispatch_inputRule _ _ (by simp [serviceChains])

theorem filter_erase (D : RuleSpec → Bool) (r : RuleSpec) (hr : D r = true)
    (m : List RuleSpec) : (m.erase r).filter D = (m.filter D).erase r := by
  induction m with
  | nil => rfl
  | cons x xs ih =>
    by_cases hx : x = r
    · subst hx
      simp [hr]
    · have hb : (x == r) = false := by simpa using hx
      rw [List.erase_cons_tail (by simp [hb])]
      by_cases hd : D x = true
      · rw [List.filter_cons_of_pos hd, List.filter_cons_of_pos hd,
          List.erase_cons_tail (by simp [hb]), ih]
      · rw [List.filter_cons_of_neg hd, List.filter_cons_of_neg hd, ih]

theorem Tracks.congr {D : RuleSpec → Bool} {m : List RuleSpec} {S S1 : RuleSpec → Prop}
    (h : Tracks D m S) (hs : ∀ x, S x ↔ S1 x) : Tracks D m S1 :=
  ⟨h.1, fun x => (h.2 x).trans (hs x)⟩

theorem Tracks.erase {D : RuleSpec → Bool} {m : List RuleSpec} {S : RuleSpec → Prop}
    (h : Tracks D m S) (r : RuleSpec) (hr : D r = true) :
    Tracks D (m.erase r) (fun x => S x ∧ x ≠ r) := by
  rw [Tracks, filter_erase D r hr]
  refine ⟨h.1.erase r, fun x => ?_⟩
  rw [h.1.mem_erase_iff, h.2 x]
  exact and_comm

theorem Tracks.appendUnique {D : RuleSpec → Bool} {m : List RuleSpec} {S : RuleSpec → Prop}
    (h : Tracks D m S) (r : RuleSpec) (hr : D r = true) :
    Tracks D (if r ∈ m then m else m ++ [r]) (fun x => S x ∨ x = r) := by
  by_cases hm : r ∈ m
  · rw [if_pos hm]
    refine ⟨h.1, fun x => ?_⟩
    constructor
    · intro hx; exact Or.inl ((h.2 x).mp hx)
    · rintro (hx | rfl)
      · exact (h.2 x).mpr hx
      · exact List.mem_filter.mpr ⟨hm, hr⟩
  · rw [if_neg hm]
    have hf : (m ++ [r]).filter D = m.filter D ++ [r] := by
      rw [List.filter_append, List.filter_cons_of_pos hr, List.filter_nil]
    rw [Tracks, hf]
    refine ⟨?_, fun x => ?_⟩
    · rw [List.nodup_append]
      refine ⟨h.1, List.nodup_singleton r, ?_⟩
      intro a ha hb
      rw [List.mem_singleton] at hb
      subst hb
      exact hm (List.mem_filter.mp ha).1
    · rw [List.mem_append, List.mem_singleton, h.2 x]

theorem Tracks.consUnique {D : RuleSpec → Bool} {m : List RuleSpec} {S : RuleSpec → Prop}
    (h : Tracks D m S) (r : RuleSpec) (hr : D r = true) :
    Tracks D (if r ∈ m then m else r :: m) (fun x => S x ∨ x = r) := by
  by_cases hm : r ∈ m
  · rw [if_pos hm]
    refine ⟨h.1, fun x => ?_⟩
    constructor
    · intro hx; exact Or.inl ((h.2 x).mp hx)
    · rintro (hx | rfl)
      · exact (h.2 x).mpr hx
      · exact List.mem_filter.mpr ⟨hm, hr⟩
  · rw [if_neg hm, Tracks, List.filter_cons_of_pos hr]
    refine ⟨?_, fun x => ?_⟩
    · rw [List.nodup_cons]
      exact ⟨fun ha => hm (List.mem_filter.mp ha).1, h.1⟩
    · rw [List.mem_cons, h.2 x]
      exact or_comm

theorem Tracks.eraseAll {D : RuleSpec → Bool} (rs : List RuleSpec)
    (hrs : ∀ r ∈ rs, D r = true) {m : List RuleSpec} {S : RuleSpec → Prop}
    (h : Tracks D m S) :
    Tracks D (rs.foldl List.erase m) (fun x => S x ∧ x ∉ rs) := by
  induction rs generalizing m S with
  | nil => exact h.congr (fun x => by simp)
  | cons r rs ih =>
    rw [List.foldl_cons]
    refine (ih (fun a ha => hrs a (List.mem_cons_of_mem _ ha))
      (h.erase r (hrs r (List.mem_cons_self _ _)))).congr (fun x => ?_)
    simp only [List.mem_cons, not_or]
    tauto

theorem Tracks.appendAll {D : RuleSpec → Bool} (rs : List RuleSpec)
    (hrs : ∀ r ∈ rs, D r = true) {m : List RuleSpec} {S : RuleSpec → Prop}
    (h : Tracks D m S) :
    Tracks D (rs.foldl (fun m r => if r ∈ m then m else m ++ [r]) m)
      (fun x => S x ∨ x ∈ rs) := by
  induction rs generalizing m S with
  | nil => exact h.congr (fun x => by simp)
  | cons r rs ih =>
    rw [List.foldl_cons]
    refine (ih (fun a ha => hrs a (List.mem_cons_of_mem _ ha))
      (h.appendUnique r (hrs r (List.mem_cons_self _ _)))).congr (fun x => ?_)
    simp only [List.mem_cons]
    tauto

theorem Tracks.consAll {D : RuleSpec → Bool} (rs : List RuleSpec)
    (hrs : ∀ r ∈ rs, D r = true) {m : List RuleSpec} {S : RuleSpec → Prop}
    (h : Tracks D m S) :
    Tracks D (rs.foldl (fun m r => if r ∈ m then m else r :: m) m)
      (fun x => S x ∨ x ∈ rs) := by
  induction rs generalizing m S with
  | nil => exact h.congr (fun x => by simp)
  | cons r rs ih =>
    rw [List.foldl_cons]
    refine (ih (fun a ha => hrs a (List.mem_cons_of_mem _ ha))
      (h.consUnique r (hrs r (List.mem_cons_self _ _)))).congr (fun x => ?_)
    simp only [List.mem_cons]
    tauto

/-! #### The rule lists of the two built-in chains after the port operations -/

theorem rules?_deleteMangleInputRules_mangle (ipt : IpTables) (port mc fc : String) :
    iptables.rules? (deleteMangleInputRules ipt port mc fc) "mangle" "PREROUTING"
      = (iptables.rules? ipt "mangle" "PREROUTING").map
          (fun m => m.erase (mangleRule port mc)) := by
  have hmf : ¬ ("mangle" = "filter") := by decide
  unfold deleteMangleInputRules
  simp only [rules?_Delete, hmf, false_and, if_false, and_self, if_true]

theorem rules?_deleteMangleInputRules_input (ipt : IpTables) (port mc fc : String) :
    iptables.rules? (deleteMangleInputRules ipt port mc fc) "filter" "INPUT"
      = (iptables.rules? ipt "filter" "INPUT").map
          (fun f => f.erase (inputRule port fc)) := by
  have hfm : ¬ ("filter" = "mangle") := by decide
  unfold deleteMangleInputRules
  simp only [rules?_Delete, hfm, false_and, if_false, and_self, if_true]

theorem rules?_insertMangleInputRules_mangle (ipt : IpTables) (port mc fc : String) :
    iptables.rules? (insertMangleInputRules ipt port mc fc) "mangle" "PREROUTING"
      = (iptables.rules? ipt "mangle" "PREROUTING").map
          (fun m => if mangleRule port mc ∈ m then m else m ++ [mangleRule port mc]) := by
  have hmf : ¬ ("mangle" = "filter") := by decide
  unfold insertMangleInputRules
  simp only []
  split
  · simp only [rules?_Insert_first, rules?_AppendUnique, hmf, false_and, if_false, and_self,
      if_true]
  · simp only [rules?_AppendUnique, and_self, if_true]

theorem rules?_insertMangleInputRules_input (ipt : IpTables) (port mc fc : String) :
    iptables.rules? (insertMangleInputRules ipt port mc fc) "filter" "INPUT"
      = (iptables.rules? ipt "filter" "INPUT").map
          (fun f => if inputRule port fc ∈ f then f else inputRule port fc :: f) := by
  have hfm : ¬ ("filter" = "mangle") := by decide
  have happ : iptables.rules?
      (iptables.AppendUnique ipt "mangle" "PREROUTING" (mangleRule port mc)) "filter" "INPUT"
      = iptables.rules? ipt "filter" "INPUT" := by
    simp only [rules?_AppendUnique, hfm, false_and, if_false]
  unfold insertMangleInputRules
  simp only []
  unfold iptables.Exists
  rw [happ]
  cases hf : iptables.rules? ipt "filter" "INPUT" with
  | none =>
    simp only [Bool.not_false, if_true, Option.map_none']
    rw [rules?_Insert_first]
    simp only [and_self, if_true, happ, hf, Option.map_none']
  | some f =>
    by_cases hin : inputRule port fc ∈ f
    · simp only [hin, decide_True, Bool.not_true, Bool.false_eq_true, if_false, if_true,
        Option.map_some', happ, hf]
    · simp only [hin, decide_False, Bool.not_false, if_true, if_false, Option.map_some']
      rw [rules?_Insert_first]
      simp only [and_self, if_true, happ, hf, Option.map_some']

theorem rules?_deletePortRules_mangle (ipt : IpTables) (vp : ValidatorPorts) :
    iptables.rules? (deletePortRules ipt vp) "mangle" "PREROUTING"
      = (iptables.rules? ipt "mangle" "PREROUTING").map
          (fun m => (mangleRulesOf vp).foldl List.erase m) := by
  unfold deletePortRules mangleRulesOf
  simp only [rules?_deleteMangleInputRules_mangle, Option.map_map]
  rfl

theorem rules?_deletePortRules_input (ipt : IpTables) (vp : ValidatorPorts) :
    iptables.rules? (deletePortRules ipt vp) "filter" "INPUT"
      = (iptables.rules? ipt "filter" "INPUT").map
          (fun f => (inputRulesOf vp).foldl List.erase f) := by
  unfold deletePortRules inputRulesOf
  simp only [rules?_deleteMangleInputRules_input, Option.map_map]
  rfl

theorem rules?_insertPortRules_mangle (ipt : IpTables) (vp : ValidatorPorts) :
    iptables.rules? (insertPortRules ipt vp) "mangle" "PREROUTING"
      = (iptables.rules? ipt "mangle" "PREROUTING").map
          (fun m => (mangleRulesOf vp).foldl
            (fun m r => if r ∈ m then m else m ++ [r]) m) := by
  unfold insertPortRules mangleRulesOf
  simp only [rules?_insertMangleInputRules_mangle, Option.map_map]
  rfl

theorem rules?_insertPortRules_input (ipt : IpTables) (vp : ValidatorPorts) :
    iptables.rules? (insertPortRules ipt vp) "filter" "INPUT"
      = (iptables.rules? ipt "filter" "INPUT").map
          (fun f => (inputRulesOf vp).foldl
            (fun f r => if r ∈ f then f else r :: f) f) := by
  unfold insertPortRules inputRulesOf
  simp only [rules?_insertMangleInputRules_input, Option.map_map]
  rfl

/-! #### The two built-in chains at startup -/

theorem rules?_createRules_prerouting (flags : Flags) (cfg : Config) (ipt : IpTables) :
    iptables.rules? (createRules flags cfg ipt) "mangle" "PREROUTING"
      = if flags.Pubkey = "" then
          (iptables.rules? ipt "mangle" "PREROUTING").map (fun m =>
            if ["-p", "udp", "-j", mangleChain] ∈ m then m
            else m ++ [["-p", "udp", "-j", mangleChain]])
        else iptables.rules? ipt "mangle" "PREROUTING" := by
  have hmf : ¬ ("mangle" = "filter") := by decide
  have hpre : ¬ ("PREROUTING" = mangleChain) := by decide
  unfold createRules
  simp only [rules?_Insert_first, hmf, false_and, if_false]
  split
  · rw [rules?_AppendUnique]
    simp only [and_self, if_true]
    rw [rules?_markRules]
    simp only [hpre, and_false, if_false, rules?_createChain, hmf, false_and]
  · rw [rules?_markRules]
    simp only [hpre, and_false, if_false, rules?_createChain, hmf, false_and]

theorem rules?_createRules_input (flags : Flags) (cfg : Config) (ipt : IpTables) :
    iptables.rules? (createRules flags cfg ipt) "filter" "INPUT"
      = iptables.rules? ipt "filter" "INPUT" := by
  have hfm : ¬ ("filter" = "mangle") := by decide
  have h0 : ¬ ("INPUT" = filterChain) := by decide
  have h1 : ¬ ("INPUT" = filterChain ++ "-fwd") := by decide
  have h2 : ¬ ("INPUT" = filterChain ++ "-vote") := by decide
  have h3 : ¬ ("INPUT" = filterChain ++ "-quic") := by decide
  have h4 : ¬ ("INPUT" = filterChain ++ "-quic-fwd") := by decide
  have h5 : ¬ ("INPUT" = filterChainCustom) := by decide
  have h6 : ¬ ("INPUT" = filterChainCustom ++ "-fwd") := by decide
  have h7 : ¬ ("INPUT" = filterChainCustom ++ "-vote") := by decide
  have h8 : ¬ ("INPUT" = filterChainCustom ++ "-quic") := by decide
  have h9 : ¬ ("INPUT" = filterChainCustom ++ "-quic-fwd") := by decide
  unfold createRules
  simp only [rules?_Insert_first, h0, h1, h2, h3, h4, and_false, if_false]
  split
  · rw [rules?_AppendUnique]
    simp only [hfm, false_and, if_false]
    rw [rules?_markRules]
    simp only [hfm, false_and, if_false, rules?_createChain, h0, h1, h2, h3, h4, h5, h6, h7, h8,
      h9, and_false]
  · rw [rules?_markRules]
    simp only [hfm, false_and, if_false, rules?_createChain, h0, h1, h2, h3, h4, h5, h6, h7, h8,
      h9, and_false]

theorem Tracks.of_none {D : RuleSpec → Bool} {m : List RuleSpec}
    (h : ∀ spec ∈ m, D spec = false) : Tracks D m (fun spec => spec ∈ ([] : List RuleSpec)) := by
  have hnil : m.filter D = [] := by
    rw [List.filter_eq_nil_iff]
    intro a ha
    rw [h a ha]
    exact Bool.false_ne_true
  rw [Tracks, hnil]
  exact ⟨List.nodup_nil, fun x => Iff.rfl⟩

theorem Tracks.none_of_empty {D : RuleSpec → Bool} {m : List RuleSpec} {S : RuleSpec → Prop}
    (h : Tracks D m S) (hS : ∀ x, ¬ S x) : ∀ spec ∈ m, D spec = false := by
  intro spec hspec
  by_contra hd
  have hd1 : D spec = true := by simpa using hd
  exact hS spec ((h.2 spec).mp (List.mem_filter.mpr ⟨hspec, hd1⟩))

theorem startup_portInv (flags : Flags) (cfg : Config) (k : Kernel)
    (hk : HoldsNoPortRule k.ipt) : PortInv (startup flags cfg k) := by
  obtain ⟨m, f, hm, hf, hmD, hfD⟩ := hk
  refine ⟨?_, fun vp hvp => by cases hvp⟩
  show ∃ m1 f1, iptables.rules? (createRules flags cfg k.ipt) "mangle" "PREROUTING" = some m1 ∧
    iptables.rules? (createRules flags cfg k.ipt) "filter" "INPUT" = some f1 ∧
    Tracks isMangleDispatch m1 (fun spec => spec ∈ expectedMangle none) ∧
    Tracks isInputDispatch f1 (fun spec => spec ∈ expectedInput none)
  rw [rules?_createRules_prerouting, rules?_createRules_input, hm, hf]
  by_cases hp : flags.Pubkey = ""
  · rw [if_pos hp]
    refine ⟨_, f, rfl, rfl, ?_, Tracks.of_none hfD⟩
    apply Tracks.of_none
    intro spec hspec
    beta_reduce at hspec
    by_cases hin : ["-p", "udp", "-j", mangleChain] ∈ m
    · rw [if_pos hin] at hspec; exact hmD spec hspec
    · rw [if_neg hin] at hspec
      rcases List.mem_append.mp hspec with h | h
      · exact hmD spec h
      · rw [List.mem_singleton] at h
        subst h
        decide
  · rw [if_neg hp]
    exact ⟨m, f, rfl, rfl, Tracks.of_none hmD, Tracks.of_none hfD⟩

/-! #### The port step keeps the rules in line with the registry -/

theorem uint16_lt (x : Int) : uint16 x < 65536 := by
  unfold uint16
  have h1 : (0 : Int) ≤ x % 65536 := Int.emod_nonneg x (by decide)
  have h2 : x % 65536 < 65536 := Int.emod_lt_of_pos x (by decide)
  omega

/-- A registry made by `NewValidatorPorts` whose TPU and QUIC ports are the new
ones is the new registry: the test of lines 473-474 misses no change. -/
theorem RegistryMade.unchanged {st : State} (h : RegistryMade st) (vp : ValidatorPorts)
    (hvp : st.validatorPorts = some vp) (port quic_port : Int)
    (hsame : ¬ (vp.TPU ≠ uint16 port ∨ vp.TPUquic ≠ uint16 quic_port)) :
    vp = NewValidatorPorts (uint16 port) (uint16 quic_port) := by
  obtain ⟨a, b, rfl⟩ := h vp hvp
  simp only [not_or, not_not, NewValidatorPorts] at hsame
  have ha := uint16_lt a
  have hb := uint16_lt b
  have e1 : uint16 a = uint16 port := by
    have := hsame.1
    rwa [Nat.mod_eq_of_lt ha] at this
  have e2 : uint16 b = uint16 quic_port := by
    have := hsame.2
    rwa [Nat.mod_eq_of_lt hb] at this
  rw [e1, e2]

theorem Tracks.swapAppend {D : RuleSpec → Bool} {m : List RuleSpec} (old new : List RuleSpec)
    (hold : ∀ r ∈ old, D r = true) (hnew : ∀ r ∈ new, D r = true)
    (h : Tracks D m (fun x => x ∈ old)) :
    Tracks D (new.foldl (fun m r => if r ∈ m then m else m ++ [r]) (old.foldl List.erase m))
      (fun x => x ∈ new) :=
  ((h.eraseAll old hold).appendAll new hnew).congr (fun x => by tauto)

theorem Tracks.swapCons {D : RuleSpec → Bool} {m : List RuleSpec} (old new : List RuleSpec)
    (hold : ∀ r ∈ old, D r = true) (hnew : ∀ r ∈ new, D r = true)
    (h : Tracks D m (fun x => x ∈ old)) :
    Tracks D (new.foldl (fun m r => if r ∈ m then m else r :: m) (old.foldl List.erase m))
      (fun x => x ∈ new) :=
  ((h.eraseAll old hold).consAll new hnew).congr (fun x => by tauto)

theorem Tracks.refreshAppend {D : RuleSpec → Bool} {m : List RuleSpec} (new : List RuleSpec)
    (hnew : ∀ r ∈ new, D r = true) (h : Tracks D m (fun x => x ∈ new)) :
    Tracks D (new.foldl (fun m r => if r ∈ m then m else m ++ [r]) m) (fun x => x ∈ new) :=
  (h.appendAll new hnew).congr (fun x => by tauto)

theorem Tracks.refreshCons {D : RuleSpec → Bool} {m : List RuleSpec} (new : List RuleSpec)
    (hnew : ∀ r ∈ new, D r = true) (h : Tracks D m (fun x => x ∈ new)) :
    Tracks D (new.foldl (fun m r => if r ∈ m then m else r :: m) m) (fun x => x ∈ new) :=
  (h.consAll new hnew).congr (fun x => by tauto)

theorem updatePorts_portInv (st : State) (port quic_port : Int) (h : PortInv st) :
    PortInv (updatePorts st port quic_port) := by
  obtain ⟨⟨m, f, hm, hf, hTm, hTf⟩, hreg⟩ := h
  refine ⟨?_, fun vp hvp => ⟨port, quic_port, (Option.some.inj hvp).symm⟩⟩
  unfold PortRulesMatch
  show ∃ m1 f1,
    iptables.rules? (updatePorts st port quic_port).ipt "mangle" "PREROUTING" = some m1 ∧
    iptables.rules? (updatePorts st port quic_port).ipt "filter" "INPUT" = some f1 ∧
    Tracks isMangleDispatch m1 (fun spec =>
      spec ∈ mangleRulesOf (NewValidatorPorts (uint16 port) (uint16 quic_port))) ∧
    Tracks isInputDispatch f1 (fun spec =>
      spec ∈ inputRulesOf (NewValidatorPorts (uint16 port) (uint16 quic_port)))
  unfold updatePorts
  simp only [rules?_insertPortRules_mangle, rules?_insertPortRules_input]
  cases hvp : st.validatorPorts with
  | none =>
    rw [hvp] at hTm hTf
    simp only [hm, hf, Option.map_some']
    exact ⟨_, _, rfl, rfl,
      Tracks.swapAppend [] _ (fun r hr => by cases hr) (isMangleDispatch_mangleRulesOf _) hTm,
      Tracks.swapCons [] _ (fun r hr => by cases hr) (isInputDispatch_inputRulesOf _) hTf⟩
  | some vp =>
    rw [hvp] at hTm hTf
    by_cases hch : vp.TPU ≠ uint16 port ∨ vp.TPUquic ≠ uint16 quic_port
    · simp only [hch, if_true, rules?_deletePortRules_mangle, rules?_deletePortRules_input, hm,
        hf, Option.map_some']
      exact ⟨_, _, rfl, rfl,
        Tracks.swapAppend _ _ (isMangleDispatch_mangleRulesOf _)
          (isMangleDispatch_mangleRulesOf _) hTm,
        Tracks.swapCons _ _ (isInputDispatch_inputRulesOf _)
          (isInputDispatch_inputRulesOf _) hTf⟩
    · have e := hreg.unchanged vp hvp port quic_port hch
      simp only [hch, if_false, hm, hf, Option.map_some']
      rw [← e]
      exact ⟨_, _, rfl, rfl,
        Tracks.refreshAppend _ (isMangleDispatch_mangleRulesOf _) hTm,
        Tracks.refreshCons _ (isInputDispatch_inputRulesOf _) hTf⟩

theorem portStep_portInv (P : Parsers) (flags : Flags) (node : ClusterNode) (st st1 : State)
    (hstep : portStep P flags node st = .next st1 ∨ portStep P flags node st = .stop st1)
    (h : PortInv st) : PortInv st1 := by
  have ho := portStep_outcome P flags node st
  have h1 : st1 = st ∨ ∃ port quic_port, st1 = updatePorts st port quic_port := by
    rcases hstep with e | e
    · rw [e] at ho; exact ho
    · rw [e] at ho; exact ho
  rcases h1 with rfl | ⟨port, quic_port, rfl⟩
  · exact h
  · exact updatePorts_portInv st port quic_port h

theorem Visited.portInv {P : Parsers} {flags : Flags} {cfgFile : Config} {k : Kernel}
    (hk : HoldsNoPortRule k.ipt) {st : State} (h : Visited P flags cfgFile k st) :
    PortInv st := by
  induction h with
  | start => exact startup_portInv flags _ k hk
  | port st st1 node _ hstep ih => exact portStep_portInv P flags node st st1 hstep ih
  | classify st t node _ ih => exact ih

/-! #### The states of a run are visited -/

theorem nodeLoop_visited (P : Parsers) (flags : Flags) (cfgFile : Config) (k : Kernel)
    (t : StakeTable) (nodes : List ClusterNode) (st st1 : State)
    (h : Visited P flags cfgFile k st)
    (hloop : nodeLoop P flags (loadClasses cfgFile) t nodes st = some st1) :
    Visited P flags cfgFile k st1 := by
  induction nodes generalizing st with
  | nil =>
    unfold nodeLoop at hloop
    cases hloop; exact h
  | cons node rest ih =>
    unfold nodeLoop at hloop
    cases hp : portStep P flags node st with
    | crash => rw [hp] at hloop; cases hloop
    | stop st2 =>
      rw [hp] at hloop
      cases hloop
      exact Visited.port st _ node h (Or.inr hp)
    | next st2 =>
      rw [hp] at hloop
      exact ih _ (Visited.classify st2 t node (Visited.port st st2 node h (Or.inl hp))) hloop

theorem tick_visited (P : Parsers) (flags : Flags) (cfgFile : Config) (k : Kernel)
    (inp : TickInput) (st st1 : State) (h : Visited P flags cfgFile k st)
    (htick : tick P flags (loadClasses cfgFile) inp st = some st1) :
    Visited P flags cfgFile k st1 := by
  unfold tick at htick
  generalize (if flags.UpdateIpSets = true then inp.voteAccounts.map (buildStakeTable flags)
    else some { stakedPeers := fun _ => none, totalStake := 0 }) = table at htick
  cases table with
  | none => cases htick; exact h
  | some t =>
    cases hn : inp.clusterNodes with
    | none => rw [hn] at htick; cases htick; exact h
    | some nodes =>
      rw [hn] at htick
      exact nodeLoop_visited P flags cfgFile k t nodes st st1 h htick

/-- The state at the end of every pass of a run started on `k` is visited. -/
theorem runTicks_visited (P : Parsers) (flags : Flags) (cfgFile : Config) (k : Kernel)
    (passes : List TickInput) (st st1 : State) (h : Visited P flags cfgFile k st)
    (hrun : runTicks P flags (loadClasses cfgFile) passes st = some st1) :
    Visited P flags cfgFile k st1 := by
  induction passes generalizing st with
  | nil =>
    unfold runTicks at hrun
    cases hrun; exact h
  | cons inp rest ih =>
    unfold runTicks at hrun
    cases ht : tick P flags (loadClasses cfgFile) inp st with
    | none => rw [ht] at hrun; cases hrun
    | some st2 =>
      rw [ht] at hrun
      exact ih _ (tick_visited P flags cfgFile k inp st st2 h ht) hrun

theorem sampleRunFrom_visited (k : Kernel) (flags : Flags) (cfgFile : Config)
    (passes : List TickInput) :
    Visited sampleParsers flags cfgFile k (sampleRunFrom k flags cfgFile passes) := by
  unfold sampleRunFrom
  cases h : runTicks sampleParsers flags (loadClasses cfgFile) passes
      (startup flags (loadClasses cfgFile) k) with
  | none => exact Visited.start
  | some st => exact runTicks_visited _ _ _ _ passes _ _ Visited.start h

/-! #### C11 -/

/-- C11 as stated fails: a first run is killed after the local identity was seen
with TPU port 8003; its per-port rules stay in the kernel. In the startup state of
the next run the registry is empty and `mangle/PREROUTING` and `filter/INPUT` hold
per-port rules; after a pass in which the identity is seen with TPU port 9003 the
registry holds the ports of 9003 and the chains still hold the rules of 8003. -/
theorem port_rules_outlive_restart :
    (sampleRunFrom leftoverKernel localFlags sampleConfig []).validatorPorts = none ∧
    iptables.rules? (sampleRunFrom leftoverKernel localFlags sampleConfig []).ipt
        "mangle" "PREROUTING"
      = some [mangleRule "8003" mangleChain, mangleRule "8009" mangleChain,
          mangleRule "8002" mangleChain, mangleRule "8015" mangleChain] ∧
    ¬ PortRulesMatch (sampleRunFrom leftoverKernel localFlags sampleConfig []) ∧
    (sampleRunFrom leftoverKernel localFlags sampleConfig [movedPortsPass]).validatorPorts
      = some ⟨9003, 9009, 9002, 9009, 9015⟩ ∧
    iptables.rules? (sampleRunFrom leftoverKernel localFlags sampleConfig [movedPortsPass]).ipt
        "mangle" "PREROUTING"
      = some [mangleRule "8003" mangleChain, mangleRule "8009" mangleChain,
          mangleRule "8002" mangleChain, mangleRule "8015" mangleChain,
          mangleRule "9003" mangleChain, mangleRule "9009" mangleChain,
          mangleRule "9002" mangleChain, mangleRule "9015" mangleChain] ∧
    inputRule "8003" filterChain ∈
      (iptables.rules? (sampleRunFrom leftoverKernel localFlags sampleConfig [movedPortsPass]).ipt
        "filter" "INPUT").getD [] ∧
    ¬ PortRulesMatch (sampleRunFrom leftoverKernel localFlags sampleConfig [movedPortsPass]) := by
  have h1 : (sampleRunFrom leftoverKernel localFlags sampleConfig []).validatorPorts = none := by
    decide!
  have h2 : iptables.rules? (sampleRunFrom leftoverKernel localFlags sampleConfig []).ipt
      "mangle" "PREROUTING"
      = some [mangleRule "8003" mangleChain, mangleRule "8009" mangleChain,
          mangleRule "8002" mangleChain, mangleRule "8015" mangleChain] := by
    decide!
  have h4 : (sampleRunFrom leftoverKernel localFlags sampleConfig
      [movedPortsPass]).validatorPorts = some ⟨9003, 9009, 9002, 9009, 9015⟩ := by
    decide!
  have h5 : iptables.rules?
      (sampleRunFrom leftoverKernel localFlags sampleConfig [movedPortsPass]).ipt
      "mangle" "PREROUTING"
      = some [mangleRule "8003" mangleChain, mangleRule "8009" mangleChain,
          mangleRule "8002" mangleChain, mangleRule "8015" mangleChain,
          mangleRule "9003" mangleChain, mangleRule "9009" mangleChain,
          mangleRule "9002" mangleChain, mangleRule "9015" mangleChain] := by
    decide!
  refine ⟨h1, h2, ?_, h4, h5, by decide!, ?_⟩
  · rintro ⟨m, f, hm, _, hTm, _⟩
    rw [h2] at hm
    cases hm
    rw [h1] at hTm
    have := (hTm.2 (mangleRule "8003" mangleChain)).mp (by decide)
    cases this
  · rintro ⟨m, f, hm, _, hTm, _⟩
    rw [h5] at hm
    cases hm
    rw [h4] at hTm
    have := (hTm.2 (mangleRule "8003" mangleChain)).mp (by decide)
    revert this
    decide

theorem updatePorts_ipt_of_changed (st : State) (vp1 : ValidatorPorts) (port quic_port : Int)
    (hvp1 : st.validatorPorts = some vp1)
    (hch : vp1.TPU ≠ uint16 port ∨ vp1.TPUquic ≠ uint16 quic_port) :
    (updatePorts st port quic_port).ipt
      = insertPortRules (deletePortRules st.ipt vp1)
          (NewValidatorPorts (uint16 port) (uint16 quic_port)) := by
  unfold updatePorts
  simp only [hvp1, hch, if_true]

/-- C11, amended. In every state that a run goes through, node by node, after a
startup on a kernel whose chains `mangle/PREROUTING` and `filter/INPUT` hold no
per-port dispatch rule: the per-port dispatch rules of the two chains are, each
once, the rules derived from the current registry `validatorPorts`, none when it
is empty; the deletions of lines 476-480 would leave no per-port rule in the two
chains; and a port step that changes the registry from `vp1` to `vp2` makes the
rule table by inserting the rules of `vp2` into the table from which the rules of
`vp1` were deleted. -/
theorem port_rules_match_registry (P : Parsers) (flags : Flags) (cfgFile : Config)
    (k : Kernel) (hk : HoldsNoPortRule k.ipt) (st : State)
    (h : Visited P flags cfgFile k st) :
    PortRulesMatch st ∧
    (∀ vp1, st.validatorPorts = some vp1 → HoldsNoPortRule (deletePortRules st.ipt vp1)) ∧
    (∀ node st1 vp1 vp2,
      (portStep P flags node st = .next st1 ∨ portStep P flags node st = .stop st1) →
      st.validatorPorts = some vp1 → st1.validatorPorts = some vp2 → vp1 ≠ vp2 →
      st1.ipt = insertPortRules (deletePortRules st.ipt vp1) vp2) := by
  obtain ⟨hmatch, hreg⟩ := h.portInv hk
  refine ⟨hmatch, ?_, ?_⟩
  · intro vp1 hvp
    obtain ⟨m, f, hm, hf, hTm, hTf⟩ := hmatch
    rw [hvp] at hTm hTf
    refine ⟨_, _, by rw [rules?_deletePortRules_mangle, hm]; rfl,
      by rw [rules?_deletePortRules_input, hf]; rfl, ?_, ?_⟩
    · exact (hTm.eraseAll (mangleRulesOf vp1) (isMangleDispatch_mangleRulesOf vp1)).none_of_empty
        (fun x hx => hx.2 hx.1)
    · exact (hTf.eraseAll (inputRulesOf vp1) (isInputDispatch_inputRulesOf vp1)).none_of_empty
        (fun x hx => hx.2 hx.1)
  · intro node st1 vp1 vp2 hstep hvp1 hvp2 hne
    have ho := portStep_outcome P flags node st
    have h1 : st1 = st ∨ ∃ port quic_port, st1 = updatePorts st port quic_port := by
      rcases hstep with e | e
      · rw [e] at ho; exact ho
      · rw [e] at ho; exact ho
    rcases h1 with rfl | ⟨port, quic_port, rfl⟩
    · rw [hvp1] at hvp2
      exact absurd (Option.some.inj hvp2) hne
    · have e2 : NewValidatorPorts (uint16 port) (uint16 quic_port) = vp2 :=
        Option.some.inj hvp2
      have hch : vp1.TPU ≠ uint16 port ∨ vp1.TPUquic ≠ uint16 quic_port := by
        by_contra hsame
        exact hne ((hreg.unchanged vp1 hvp1 port quic_port hsame).trans e2)
      rw [updatePorts_ipt_of_changed st vp1 port quic_port hvp1 hch, e2]

/-- A use of `port_rules_match_registry`: the fresh kernel holds no per-port rule,
and after a pass that sees the identity with TPU port 8003 and a pass that sees it
with TPU port 9003 the per-port rules are the rules of the registry. -/
theorem port_rules_match_registry_witness :
    HoldsNoPortRule freshKernel.ipt ∧
    PortRulesMatch (sampleRunFrom freshKernel localFlags sampleConfig
      [localNodePass, movedPortsPass]) :=
  have hk : HoldsNoPortRule freshKernel.ipt :=
    ⟨[], [], by decide, by decide, (fun _ h => by cases h), (fun _ h => by cases h)⟩
  ⟨hk, (port_rules_match_registry sampleParsers localFlags sampleConfig freshKernel hk _
    (sampleRunFrom_visited _ _ _ _)).1⟩

/-- The run of the witness, evaluated: after the change from TPU port 8003 to
9003 the two chains hold the rules of 9003 and none of 8003. -/
theorem port_rules_after_change :
    (sampleRunFrom freshKernel localFlags sampleConfig
      [localNodePass, movedPortsPass]).validatorPorts = some ⟨9003, 9009, 9002, 9009, 9015⟩ ∧
    iptables.rules? (sampleRunFrom freshKernel localFlags sampleConfig
        [localNodePass, movedPortsPass]).ipt "mangle" "PREROUTING"
      = some [mangleRule "9003" mangleChain, mangleRule "9009" mangleChain,
          mangleRule "9002" mangleChain, mangleRule "9015" mangleChain] ∧
    iptables.rules? (sampleRunFrom freshKernel localFlags sampleConfig
        [localNodePass, movedPortsPass]).ipt "filter" "INPUT"
      = some [inputRule "9015" "solana-tpu-quic-fwd", inputRule "9009" "solana-tpu-quic",
          inputRule "9002" "solana-tpu-vote", inputRule "9009" "solana-tpu-fwd",
          inputRule "9003" "solana-tpu"] := by
  refine ⟨?_, ?_, ?_⟩
  · decide!
  · decide!
  · decide!

end TpuTrafficClassifier
